import Mathlib

/-!
Shallow embedding of the wispbit code-review engine core.

JavaScript strings are modelled as lists of characters (`JStr`); JavaScript
numbers appearing as line counters are modelled as `Int`.  Values that may be
`undefined` at runtime are modelled with `Option`.  JavaScript functions that
would throw on malformed input (for example indexing `undefined`) are modelled
with `Option` results plus a decidable well-formedness predicate that carves
out the inputs on which the source cannot throw; theorems about such
functions carry that predicate as a hypothesis.
-/

set_option linter.unusedVariables false

abbrev JStr := List Char

def js (s : String) : JStr := s.data

/-- ASCII whitespace recognised by the model of JavaScript trim and regex
whitespace (the source only ever trims ASCII rule/patch text). -/
def jsWS (c : Char) : Bool :=
  c == ' ' || c == '\t' || c == '\n' || c == '\r' || c == '\x0b' || c == '\x0c'

/-- Model of JavaScript String.prototype.startsWith. -/
def startsWithJ : JStr → JStr → Bool
  | [], _ => true
  | _ :: _, [] => false
  | p :: ps, c :: cs => p == c && startsWithJ ps cs

/-- Model of JavaScript String.prototype.trim (ASCII whitespace). -/
def trimJ (s : JStr) : JStr :=
  ((s.dropWhile jsWS).reverse.dropWhile jsWS).reverse

/-- Model of JavaScript Array.prototype.join with separator sep. -/
def joinSepJ (sep : JStr) : List JStr → JStr
  | [] => []
  | [x] => x
  | x :: y :: xs => x ++ sep ++ joinSepJ sep (y :: xs)

/-- Model of JavaScript String.prototype.split with a one-character
separator: always returns one more segment than there are separators, so
splitting the empty string yields one empty segment. -/
def splitCJ (sep : Char) : JStr → List JStr
  | [] => [[]]
  | c :: cs =>
    match splitCJ sep cs with
    | [] => [[]]
    | h :: t => if c = sep then [] :: h :: t else (c :: h) :: t

/-- Model of JavaScript String.prototype.split on the separator "---" (the
only string-separator split the source performs, in parseFrontmatter): scan
left to right for non-overlapping occurrences. -/
def splitDashes : JStr → List JStr
  | '-' :: '-' :: '-' :: rest =>
    match splitDashes rest with
    | [] => [[]]
    | h :: t => [] :: h :: t
  | c :: cs =>
    match splitDashes cs with
    | [] => [[]]
    | h :: t => (c :: h) :: t
  | [] => [[]]

/-- Model of JavaScript String.prototype.replace with a string pattern:
replaces only the first occurrence, scanning left to right (an empty
pattern matches immediately, as in JavaScript). -/
def replaceFirstJ (pat rep : JStr) : JStr → JStr
  | [] => if startsWithJ pat [] then rep else []
  | c :: cs =>
    if startsWithJ pat (c :: cs) then rep ++ (c :: cs).drop pat.length
    else c :: replaceFirstJ pat rep cs

def digitValJ (c : Char) : Nat := c.toNat - '0'.toNat

/-- Model of JavaScript parseInt(s, 10): skip leading whitespace, optional
sign, then the longest leading run of decimal digits; `none` models NaN. -/
def parseIntJS (s : JStr) : Option Int :=
  let t := s.dropWhile jsWS
  let signed : Int × JStr :=
    match t with
    | '-' :: r => (-1, r)
    | '+' :: r => (1, r)
    | r => (1, r)
  let digs := signed.2.takeWhile (fun c => c.isDigit)
  if digs.isEmpty then none
  else some (signed.1 * (digs.foldl (fun acc c => acc * 10 + digitValJ c) 0 : Nat))

/-- Decimal rendering of a natural number (JavaScript Number.toString for
the non-negative integers that occur in the embedded code). -/
def natToJ (n : Nat) : JStr := Nat.toDigits 10 n

def intToJ (i : Int) : JStr :=
  if i < 0 then '-' :: natToJ i.natAbs else natToJ i.natAbs

/-- Model of JavaScript Array.prototype.slice(b, f) (clamping semantics). -/
def jsSliceJ {α : Type} (l : List α) (s e : Int) : List α :=
  let len : Int := l.length
  let b := if s < 0 then max (len + s) 0 else min s len
  let f := if e < 0 then max (len + e) 0 else min e len
  (l.take f.toNat).drop b.toNat

/-- Model of the JavaScript loop `for (let l = s; l <= e; l++) if (p l) ...`
returning whether some iteration succeeds. -/
def intRangeAnyJ (s e : Int) (p : Int → Bool) : Bool :=
  (List.range (e - s + 1).toNat).any fun (i : Nat) => p (s + i)

/-- The list of integers s, s+1, ..., e. -/
def intRangeListJ (s e : Int) : List Int :=
  (List.range (e - s + 1).toNat).map fun (i : Nat) => s + (i : Int)

/-- Lexicographic comparison of character lists by code point, the model of
the default JavaScript string comparison used by Array.prototype.toSorted. -/
def jleB : JStr → JStr → Bool
  | [], _ => true
  | _ :: _, [] => false
  | a :: as, b :: bs =>
    if a.toNat < b.toNat then true
    else if b.toNat < a.toNat then false
    else jleB as bs

/-! ### Patch analyzer (src/packages/sdk/src/patchParser.ts) -/

/-- The hunk-header sentinel "@@". -/
def atat : JStr := ['@', '@']

/-- Model of `parseInt(line.split(" ")[1].split(",")[0].replace("-", ""))`
from the hunk-header parsing in patchParser.ts.  `none` models both a thrown
TypeError (missing part) and a NaN parse. -/
def hunkOldStart (line : JStr) : Option Int :=
  ((splitCJ ' ' line).get? 1).bind fun part =>
    parseIntJS (replaceFirstJ (js "-") [] ((splitCJ ',' part).headD []))

/-- Model of `parseInt(line.split(" ")[2].split(",")[0].replace("+", ""))`. -/
def hunkNewStart (line : JStr) : Option Int :=
  ((splitCJ ' ' line).get? 2).bind fun part =>
    parseIntJS (replaceFirstJ (js "+") [] ((splitCJ ',' part).headD []))

/-- Model of the JavaScript `x || "1"` default for a possibly missing or
empty count field. -/
def jsOrDefault (o : Option JStr) (d : JStr) : JStr :=
  match o with
  | some s => if s.isEmpty then d else s
  | none => d

/-- Model of `parseInt(oldPart.split(",")[1] || "1")` from getPatchLineRanges. -/
def hunkOldCount (line : JStr) : Option Int :=
  ((splitCJ ' ' line).get? 1).bind fun part =>
    parseIntJS (jsOrDefault ((splitCJ ',' part).get? 1) (js "1"))

/-- Model of `parseInt(newPart.split(",")[1] || "1")` from getPatchLineRanges. -/
def hunkNewCount (line : JStr) : Option Int :=
  ((splitCJ ' ' line).get? 2).bind fun part =>
    parseIntJS (jsOrDefault ((splitCJ ',' part).get? 1) (js "1"))

/-- Decidable well-formedness of a patch string: every line recognised as a
hunk header actually starts with "@@" (not merely after trimming) and all
four header numbers parse.  On such patches the embedded patch functions
agree with the JavaScript source, which would otherwise throw or propagate
NaN. -/
def headersOk (patch : JStr) : Bool :=
  (splitCJ '\n' patch).all fun line =>
    !(startsWithJ atat (trimJ line)) ||
      (startsWithJ atat line && (hunkOldStart line).isSome && (hunkNewStart line).isSome
        && (hunkOldCount line).isSome && (hunkNewCount line).isSome)

inductive Side
  | left
  | right
deriving DecidableEq, Repr

/-- A parsed patch line: [oldLine, newLine, content] in patchParser.ts. -/
structure PatchLine where
  oldLine : Option Int
  newLine : Option Int
  content : JStr
deriving DecidableEq, Repr

/-- The loop body of parsePatch from patchParser.ts, walking the split lines
with the two line cursors and the inHunk flag. -/
def parsePatchGo : List JStr → Int → Int → Bool → List PatchLine
  | [], _, _, _ => []
  | line :: rest, curOld, curNew, inHunk =>
    if startsWithJ atat line then
      parsePatchGo rest ((hunkOldStart line).getD 0) ((hunkNewStart line).getD 0) true
    else if !inHunk then
      parsePatchGo rest curOld curNew inHunk
    else if startsWithJ (js "+") line then
      ⟨none, some curNew, line.drop 1⟩ :: parsePatchGo rest curOld (curNew + 1) inHunk
    else if startsWithJ (js "-") line then
      ⟨some curOld, none, line.drop 1⟩ :: parsePatchGo rest (curOld + 1) curNew inHunk
    else if !(startsWithJ (js "\\") line) then
      ⟨some curOld, some curNew, line⟩ :: parsePatchGo rest (curOld + 1) (curNew + 1) inHunk
    else
      parsePatchGo rest curOld curNew inHunk

/-- parsePatch(patch) from patchParser.ts: `patch ? patch.split("\n") : []`
then the hunk walk. -/
def parsePatch (patch : JStr) : List PatchLine :=
  parsePatchGo (if patch.isEmpty then [] else splitCJ '\n' patch) 0 0 false

/-- parseLines(patch) from patchParser.ts: the pair (addedLines,
removedLines).  The JavaScript Sets are modelled as lists; only membership
is ever consumed. -/
def parseLines (patch : JStr) : List Int × List Int :=
  let parsed := parsePatch patch
  (parsed.filterMap fun pl =>
      match pl.oldLine, pl.newLine with
      | none, some n => some n
      | _, _ => none,
    parsed.filterMap fun pl =>
      match pl.oldLine, pl.newLine with
      | some o, none => some o
      | _, _ => none)

/-- The loop of getPatchLineRanges from patchParser.ts, collecting per-hunk
inclusive [start, end] ranges for both sides. -/
def getPatchLineRangesGo : List JStr → List (Int × Int) × List (Int × Int)
  | [] => ([], [])
  | line :: rest =>
    let tails := getPatchLineRangesGo rest
    if startsWithJ atat (trimJ line) then
      let oldStart := (hunkOldStart line).getD 0
      let oldCount := (hunkOldCount line).getD 0
      let newStart := (hunkNewStart line).getD 0
      let newCount := (hunkNewCount line).getD 0
      ((oldStart, oldStart + oldCount - 1) :: tails.1,
        (newStart, newStart + newCount - 1) :: tails.2)
    else tails

/-- getPatchLineRanges(patch) from patchParser.ts. -/
def getPatchLineRanges (patch : JStr) : List (Int × Int) × List (Int × Int) :=
  getPatchLineRangesGo (splitCJ '\n' patch)

/-- LineReference from types.ts: start, end (inclusive) and side. -/
structure LineReference where
  start : Int
  endLine : Int
  side : Side
deriving DecidableEq, Repr

/-- isLineReferenceValidForPatch(lineReference, patch) from patchParser.ts:
containment in some hunk range on the reference's side, then a scan of
[start, end] for a changed line on that side.  As in the source, the pair
returned by parseLines is destructured as [newLines, oldLines] (added lines
first). -/
def isLineReferenceValidForPatch (lineReference : LineReference) (patch : JStr) : Bool :=
  let oldRanges := (getPatchLineRanges patch).1
  let newRanges := (getPatchLineRanges patch).2
  if oldRanges.isEmpty || newRanges.isEmpty then false
  else
    let ranges := if lineReference.side = Side.left then oldRanges else newRanges
    let isCompletelyOutside :=
      !(ranges.any fun r => decide (r.1 ≤ lineReference.start) && decide (lineReference.endLine ≤ r.2))
    if isCompletelyOutside then false
    else
      let newLines := (parseLines patch).1
      let oldLines := (parseLines patch).2
      intRangeAnyJ lineReference.start lineReference.endLine fun l =>
        if lineReference.side = Side.left then oldLines.contains l else newLines.contains l

/-- The hunk ranges of a patch on one side, as the claims phrase it. -/
def sideRanges (side : Side) (patch : JStr) : List (Int × Int) :=
  match side with
  | Side.left => (getPatchLineRanges patch).1
  | Side.right => (getPatchLineRanges patch).2

/-- The changed lines of a patch on one side: added new-line numbers on the
right, removed old-line numbers on the left. -/
def sideChangedLines (side : Side) (patch : JStr) : List Int :=
  match side with
  | Side.left => (parseLines patch).2
  | Side.right => (parseLines patch).1

/-! ### extractDiffHunk (patchParser.ts lines 170-284) and its helper
calculateHunkLineNumbers (lines 342-431) -/

/-- State of the first pass of extractDiffHunk.  The JavaScript -1 sentinels
for unset indices are modelled as `none`. -/
structure Scan1St where
  curOld : Int
  curNew : Int
  inHunk : Bool
  currentHunkStart : Option Nat
  targetHunkStart : Option Nat
  violationStart : Option Nat
  violationEnd : Option Nat
deriving DecidableEq, Repr

def scan1Init : Scan1St :=
  ⟨0, 0, false, none, none, none, none⟩

/-- The shared "record a violation line at index i" assignment of the first
pass: set violationStart and targetHunkStart on the first hit, always move
violationEnd. -/
def markViolation (st : Scan1St) (i : Nat) : Scan1St :=
  let st' :=
    if st.violationStart = none then
      { st with violationStart := some i, targetHunkStart := st.currentHunkStart }
    else st
  { st' with violationEnd := some i }

/-- One line of the first pass of extractDiffHunk. -/
def scan1Step (side : Side) (startLine endLine : Int) (st : Scan1St) (il : Nat × JStr) :
    Scan1St :=
  let i := il.1
  let line := il.2
  if startsWithJ atat line then
    { st with
      curOld := (hunkOldStart line).getD 0
      curNew := (hunkNewStart line).getD 0
      inHunk := true
      currentHunkStart := some i }
  else if !st.inHunk then st
  else if startsWithJ (js "+") line then
    let st' :=
      if side = Side.right ∧ startLine ≤ st.curNew ∧ st.curNew ≤ endLine then
        markViolation st i
      else st
    { st' with curNew := st'.curNew + 1 }
  else if startsWithJ (js "-") line then
    let st' :=
      if side = Side.left ∧ startLine ≤ st.curOld ∧ st.curOld ≤ endLine then
        markViolation st i
      else st
    { st' with curOld := st'.curOld + 1 }
  else if !(startsWithJ (js "\\") line) then
    let st1 :=
      if side = Side.right ∧ startLine ≤ st.curNew ∧ st.curNew ≤ endLine then
        markViolation st i
      else st
    let st2 :=
      if side = Side.left ∧ startLine ≤ st.curOld ∧ st.curOld ≤ endLine then
        markViolation st1 i
      else st1
    { st2 with curOld := st2.curOld + 1, curNew := st2.curNew + 1 }
  else st

/-- Result record of calculateHunkLineNumbers. -/
structure HunkInfo where
  extractedOldStart : Int
  extractedOldCount : Int
  extractedNewStart : Int
  extractedNewCount : Int
deriving DecidableEq, Repr

/-- State of the second pass (calculateHunkLineNumbers). -/
structure CalcSt where
  curOld : Int
  curNew : Int
  inHunk : Bool
  exOldStart : Option Int
  exOldCount : Int
  exNewStart : Option Int
  exNewCount : Int
deriving DecidableEq, Repr

/-- The loop of calculateHunkLineNumbers, with the early `break` on reaching
a later hunk modelled by returning the current state. -/
def calcGo (extracted : List Nat) (tgt : Option Nat) :
    List (Nat × JStr) → CalcSt → CalcSt
  | [], st => st
  | (i, line) :: rest, st =>
    if (tgt = none ∧ startsWithJ atat line = true) ∨
        (tgt = some i ∧ startsWithJ atat line = true) then
      calcGo extracted tgt rest
        { st with
          curOld := (hunkOldStart line).getD 0
          curNew := (hunkNewStart line).getD 0
          inHunk := true }
    else if !st.inHunk || (match tgt with | some t => decide (i < t) | none => false) then
      calcGo extracted tgt rest st
    else if extracted.contains i then
      if startsWithJ (js "+") line then
        let st1 := if st.exNewStart = none then { st with exNewStart := some st.curNew } else st
        let st2 :=
          if st1.exOldStart = none then { st1 with exOldStart := some st1.curOld } else st1
        calcGo extracted tgt rest
          { st2 with exNewCount := st2.exNewCount + 1, curNew := st2.curNew + 1 }
      else if startsWithJ (js "-") line then
        let st1 := if st.exOldStart = none then { st with exOldStart := some st.curOld } else st
        let st2 :=
          if st1.exNewStart = none then { st1 with exNewStart := some st1.curNew } else st1
        calcGo extracted tgt rest
          { st2 with exOldCount := st2.exOldCount + 1, curOld := st2.curOld + 1 }
      else if !(startsWithJ (js "\\") line) then
        let st1 := if st.exOldStart = none then { st with exOldStart := some st.curOld } else st
        let st2 :=
          if st1.exNewStart = none then { st1 with exNewStart := some st1.curNew } else st1
        calcGo extracted tgt rest
          { st2 with
            exOldCount := st2.exOldCount + 1
            exNewCount := st2.exNewCount + 1
            curOld := st2.curOld + 1
            curNew := st2.curNew + 1 }
      else calcGo extracted tgt rest st
    else if (match tgt with | some t => decide (i > t) | none => false) &&
        startsWithJ atat line then
      st
    else
      if startsWithJ (js "+") line then
        calcGo extracted tgt rest { st with curNew := st.curNew + 1 }
      else if startsWithJ (js "-") line then
        calcGo extracted tgt rest { st with curOld := st.curOld + 1 }
      else if !(startsWithJ (js "\\") line) && !(startsWithJ atat line) then
        calcGo extracted tgt rest { st with curOld := st.curOld + 1, curNew := st.curNew + 1 }
      else calcGo extracted tgt rest st

/-- calculateHunkLineNumbers(lines, extractedLineIndices, targetHunkStart)
from patchParser.ts (the -1 "scan all" default is modelled by `none`;
extractDiffHunk always passes a concrete index). -/
def calculateHunkLineNumbers (lines : List JStr) (extracted : List Nat)
    (tgt : Option Nat) : HunkInfo :=
  let st := calcGo extracted tgt lines.enum ⟨0, 0, false, none, 0, none, 0⟩
  ⟨st.exOldStart.getD 1, st.exOldCount, st.exNewStart.getD 1, st.exNewCount⟩

/-- The `start` / `start,0` / `start,count` span rendering of the rebuilt
hunk header in extractDiffHunk. -/
def hunkSpanSpec (start count : Int) : JStr :=
  if count = 0 then intToJ start ++ js ",0"
  else if count = 1 then intToJ start
  else intToJ start ++ js "," ++ intToJ count

/-- extractDiffHunk(patch, startLine, endLine, side, contextLines) from
patchParser.ts. -/
def extractDiffHunk (patch : JStr) (startLine endLine : Int) (side : Side)
    (contextLines : Int) : JStr :=
  let lines := splitCJ '\n' patch
  let st := lines.enum.foldl (scan1Step side startLine endLine) scan1Init
  match st.violationStart, st.violationEnd, st.targetHunkStart with
  | some vS, some vE, some tH =>
    let contextStart : Int := max ((tH : Int) + 1) ((vS : Int) - contextLines)
    let contextEnd : Int := min ((lines.length : Int) - 1) ((vE : Int) + contextLines)
    let extractedLineIndices : List Nat :=
      ((intRangeListJ contextStart contextEnd).filter fun i =>
        decide (i < (lines.length : Int)) && !(startsWithJ atat (lines.getD i.toNat []))).map
        Int.toNat
    let info := calculateHunkLineNumbers lines extractedLineIndices (some tH)
    let header :=
      js "@@ -" ++ hunkSpanSpec info.extractedOldStart info.extractedOldCount ++
        js " +" ++ hunkSpanSpec info.extractedNewStart info.extractedNewCount ++ js " @@"
    joinSepJ (js "\n") (header :: extractedLineIndices.map fun i => lines.getD i [])
  | _, _, _ => []

/-! ### Claim C9: spec-side description of which hunk body lines carry a
line number in [startLine, endLine] on a given side, mirroring the walk of
the first pass of extractDiffHunk. -/

/-- The non-header lines of a rendered patch or hunk. -/
def nonHeaderLines (s : JStr) : List JStr :=
  (splitCJ '\n' s).filter fun l => !(startsWithJ atat l)

/-- For each body line of a hunk (walked with old cursor o and new cursor n),
whether the line carries a line number in [startLine, endLine] on the given
side: additions carry a new number, deletions an old number, context lines
both, meta lines neither. -/
def hunkBodyMatch (side : Side) (startLine endLine : Int) :
    Int → Int → List JStr → List Bool
  | _, _, [] => []
  | o, n, line :: rest =>
    if startsWithJ (js "+") line then
      decide (side = Side.right ∧ startLine ≤ n ∧ n ≤ endLine) ::
        hunkBodyMatch side startLine endLine o (n + 1) rest
    else if startsWithJ (js "-") line then
      decide (side = Side.left ∧ startLine ≤ o ∧ o ≤ endLine) ::
        hunkBodyMatch side startLine endLine (o + 1) n rest
    else if startsWithJ (js "\\") line then
      false :: hunkBodyMatch side startLine endLine o n rest
    else
      (decide (side = Side.right ∧ startLine ≤ n ∧ n ≤ endLine) ||
        decide (side = Side.left ∧ startLine ≤ o ∧ o ≤ endLine)) ::
        hunkBodyMatch side startLine endLine (o + 1) (n + 1) rest

/-- Index of the first true flag. -/
def firstTrue : List Bool → Option Nat
  | [] => none
  | b :: bs => if b then some 0 else (firstTrue bs).map (· + 1)

/-- Index of the last true flag. -/
def lastTrue : List Bool → Option Nat
  | [] => none
  | b :: bs =>
    match lastTrue bs with
    | some k => some (k + 1)
    | none => if b then some 0 else none

/-- The violationStart produced by scanning a hunk body whose lines begin at
global index k, given the value vS on entry. -/
def scanSpecVS (k : Nat) (vS : Option Nat) (flags : List Bool) : Option Nat :=
  match vS with
  | some v => some v
  | none => (firstTrue flags).map (k + ·)

/-- The violationEnd produced by scanning a hunk body. -/
def scanSpecVE (k : Nat) (vE : Option Nat) (flags : List Bool) : Option Nat :=
  match lastTrue flags with
  | some l => some (k + l)
  | none => vE

/-- The targetHunkStart produced by scanning a hunk body inside the hunk
whose header sits at global index h. -/
def scanSpecTarget (h : Nat) (tOpt vS : Option Nat) (flags : List Bool) : Option Nat :=
  match vS, firstTrue flags with
  | none, some _ => some h
  | none, none => tOpt
  | some _, _ => tOpt

/-- The per-line match flags of the first pass of extractDiffHunk over a
whole patch, mirroring scan1Step line for line: hunk headers reset the
counters and are never flagged, lines before the first header are skipped,
and inside a hunk a line is flagged exactly when it carries a line number in
[startLine, endLine] on the given side. -/
def patchLinesMatch (side : Side) (startLine endLine : Int) :
    Int → Int → Bool → List JStr → List Bool
  | _, _, _, [] => []
  | o, n, inH, line :: rest =>
    if startsWithJ atat line then
      false :: patchLinesMatch side startLine endLine
        ((hunkOldStart line).getD 0) ((hunkNewStart line).getD 0) true rest
    else if !inH then
      false :: patchLinesMatch side startLine endLine o n inH rest
    else if startsWithJ (js "+") line then
      decide (side = Side.right ∧ startLine ≤ n ∧ n ≤ endLine) ::
        patchLinesMatch side startLine endLine o (n + 1) inH rest
    else if startsWithJ (js "-") line then
      decide (side = Side.left ∧ startLine ≤ o ∧ o ≤ endLine) ::
        patchLinesMatch side startLine endLine (o + 1) n inH rest
    else if startsWithJ (js "\\") line then
      false :: patchLinesMatch side startLine endLine o n inH rest
    else
      (decide (side = Side.right ∧ startLine ≤ n ∧ n ≤ endLine) ||
        decide (side = Side.left ∧ startLine ≤ o ∧ o ≤ endLine)) ::
        patchLinesMatch side startLine endLine (o + 1) (n + 1) inH rest


/-! ### Rules and the complaint tool (src/packages/sdk/src/tools.ts,
types.ts).  Error message texts are built without quote characters; only
their structure matters to the claims. -/

/-- CodebaseRule from types.ts (the optional status field is omitted; the
optional directory is the empty string where the source has undefined,
matching the `directory ?? ""` normalisation in newRule; the source field
`include` is named includeList because include is reserved in Lean). -/
structure CodebaseRule where
  id : JStr
  directory : JStr
  name : JStr
  contents : JStr
  includeList : List JStr
deriving DecidableEq, Repr

/-- ComplaintParameters from CodeReviewerExecutor.ts.  At runtime line_start
and line_end arrive from JSON and may be numbers, strings, or absent; the
model stores the result of JavaScript toString as an optional string. -/
structure ComplaintParameters where
  file_path : JStr
  line_start : Option JStr
  line_end : Option JStr
  line_side : Side
  description : JStr
  rule_id : JStr
deriving DecidableEq, Repr

/-- The `toString().replace("L", "").replace("R", "")` normalisation applied
to line_start and line_end in the complaint executor. -/
def stripLR (s : JStr) : JStr :=
  replaceFirstJ (js "R") [] (replaceFirstJ (js "L") [] s)

/-- JavaScript falsiness of an optional string: undefined or empty. -/
def jsFalsy (o : Option JStr) : Bool :=
  match o with
  | none => true
  | some s => s.isEmpty

/-- The TypeScript union ComplaintParameters | { error: string }. -/
inductive ComplaintResult
  | ok (parameters : ComplaintParameters)
  | error (msg : JStr)
deriving DecidableEq, Repr

/-- complaint(parameters, cwd, file, rules) from tools.ts: the sequential
validation chain, returning the ORIGINAL parameters on success. -/
def complaint (parameters : ComplaintParameters) (fileFilename filePatch : JStr)
    (rules : List CodebaseRule) : ComplaintResult :=
  let lineStart := parameters.line_start.map stripLR
  let lineEnd := parameters.line_end.map stripLR
  if parameters.file_path ≠ fileFilename then
    ComplaintResult.error (js "File path does not match original file: " ++
      parameters.file_path ++ js " !== " ++ fileFilename ++
      js ". You can only report violations for the file that is in review.")
  else if (rules.find? fun rule => rule.id == parameters.rule_id).isNone then
    ComplaintResult.error (js "Rule not found: " ++ parameters.rule_id ++
      js ". You can only report violations for the rules that exist. Possible rule IDs: " ++
      joinSepJ (js ", ") (rules.map fun rule => rule.id))
  else if jsFalsy lineStart || jsFalsy lineEnd then
    ComplaintResult.error (js "No line numbers provided, or line numbers are invalid. " ++
      js "You must provide a line start and end. start: " ++ lineStart.getD [] ++
      js ", end: " ++ lineEnd.getD [])
  else if (parseIntJS (lineStart.getD [])).isNone || (parseIntJS (lineEnd.getD [])).isNone then
    ComplaintResult.error (js "Line numbers are not valid integers. start: " ++
      lineStart.getD [] ++ js ", end: " ++ lineEnd.getD [])
  else if !(isLineReferenceValidForPatch
      ⟨(parseIntJS (lineStart.getD [])).getD 0, (parseIntJS (lineEnd.getD [])).getD 0,
        parameters.line_side⟩ filePatch) then
    ComplaintResult.error (js "Line reference is not valid for patch: " ++ lineStart.getD [] ++
      js " - " ++ lineEnd.getD [] ++
      js ". You can only report violations for the lines that are in the patch.")
  else
    ComplaintResult.ok parameters

/-- Modelled from the spec claim C2: the normalised complaint parameters,
with line_start and line_end replaced by the canonical decimal rendering of
their L/R-stripped parsed values. -/
def specNormalisedParams (p : ComplaintParameters) : ComplaintParameters :=
  { p with
    line_start := p.line_start.map fun s => ((parseIntJS (stripLR s)).map intToJ).getD (stripLR s)
    line_end := p.line_end.map fun s => ((parseIntJS (stripLR s)).map intToJ).getD (stripLR s) }

/-! ### read_file (src/packages/sdk/src/tools.ts).  Path resolution and the
filesystem are abstracted into two booleans (safePath success, fileExists)
and the file contents; the rest of the control flow is embedded as
written. -/

/-- The runtime read_file arguments object.  The interface
ReadFileParameters and the published tool schema declare
end_line_one_indexed_inclusive, while the implementation destructures a key
end_line_one_indexed; both are modelled so the mismatch is expressible. -/
structure ReadFileParameters where
  target_file : JStr
  start_line_one_indexed : Option Int
  end_line_one_indexed_inclusive : Option Int
  end_line_one_indexed : Option Int
  should_read_entire_file : Bool
deriving DecidableEq, Repr

/-- The TypeScript union { content: string } | { error: string }. -/
inductive ReadFileToolResult
  | content (c : JStr)
  | error (e : JStr)
deriving DecidableEq, Repr

/-- readFileRange(filePath, startLine, endLine) from tools.ts, as a function
of the file contents. -/
def readFileRange (content : JStr) (startLine endLine : Int) : JStr :=
  let lines := splitCJ '\n' content
  let start : Int := max 0 (startLine - 1)
  let endL : Int := min (lines.length : Int) endLine
  let selectedLines := jsSliceJ lines start endL
  if start = 0 ∧ endL = (lines.length : Int) then content
  else
    (if start > 0 then js "[Lines 1-" ++ intToJ start ++ js " omitted]\n" else []) ++
      joinSepJ (js "\n") selectedLines ++
      (if endL < (lines.length : Int) then
        js "\n[Lines " ++ intToJ (endL + 1) ++ js "-" ++ intToJ (lines.length : Int) ++
          js " omitted]"
      else [])

/-- JavaScript template rendering of a possibly-undefined number. -/
def optIntToJ (o : Option Int) : JStr :=
  match o with
  | some i => intToJ i
  | none => js "undefined"

/-- readFile(parameters, cwd) from tools.ts.  pathOk models a non-null
safePath result and fileExistsB the fileExists check; fileContent is the
contents at the resolved path.  As in the source, the line range is read
from the key end_line_one_indexed (declared nowhere in the schema), and a
missing value behaves as NaN. -/
def readFile (pathOk fileExistsB : Bool) (fileContent : JStr)
    (p : ReadFileParameters) : ReadFileToolResult :=
  if !pathOk then
    ReadFileToolResult.error (js "Invalid file path: " ++ p.target_file)
  else if !fileExistsB then
    ReadFileToolResult.error (js "File not found or not accessible: " ++ p.target_file ++
      js ". It may have been deleted as part of the PR.")
  else if p.should_read_entire_file then
    ReadFileToolResult.content fileContent
  else
    let startv := p.start_line_one_indexed
    let endv := p.end_line_one_indexed
    if startv = none ∨ endv = none ∨ (startv.getD 0) < 1 ∨ (endv.getD 0) < (startv.getD 0) then
      ReadFileToolResult.error (js "Invalid line range: start=" ++ optIntToJ startv ++
        js ", end=" ++ optIntToJ endv ++ js ". You must provide a valid line range.")
    else
      ReadFileToolResult.content (readFileRange fileContent (startv.getD 0) (endv.getD 0))

/-! ### Review loop bookkeeping (src CodeReviewer.runPromptAndGetAnalysis)
and per-file orchestration (src/packages/cli/src/codeReview.ts processFile) -/

/-- One executed tool call, as seen by the visited-file tracking: the tool
name, the target_file argument, and whether the result carried no error
key. -/
structure ToolEvent where
  name : JStr
  target_file : JStr
  ok : Bool
deriving DecidableEq, Repr

/-- The comparison used by JavaScript toSorted on strings, as a relation. -/
def jleR (a b : JStr) : Prop := jleB a b = true

instance : DecidableRel jleR := fun a b => inferInstanceAs (Decidable (jleB a b = true))

/-- The visited-file bookkeeping of CodeReviewer.runPromptAndGetAnalysis:
push the target_file of every successful read_file tool result in order,
then filter out the file under review, then sort (toSorted with the default
string comparator, modelled by insertion sort over jleR --- any stable sort
agrees on a total comparator). -/
def visitedFilesOfEvents (events : List ToolEvent) (filename : JStr) : List JStr :=
  let visitedFiles := events.foldl
    (fun acc e2 => if e2.name == js "read_file" && e2.ok then acc ++ [e2.target_file] else acc)
    []
  let visitedFiles2 := visitedFiles.filter fun f2 => f2 ≠ filename
  List.insertionSort jleR visitedFiles2

/-- LineReference-valued cached violation rows as returned by
getViolationsForFile in the CLI cache layer. -/
structure ViolationDetail where
  description : JStr
  line : LineReference
  ruleId : JStr
deriving DecidableEq, Repr

/-- Violation from types.ts, with the optional fields modelled as options. -/
structure Violation where
  description : JStr
  line : LineReference
  rule : CodebaseRule
  validationReasoning : Option JStr
  isCached : Option Bool
deriving DecidableEq, Repr

/-- Terminal per-file status reported through onUpdateFile. -/
inductive FileStatus
  | completed
  | skipped (reason : JStr)
deriving DecidableEq, Repr

/-- Outcome of processing one file in runCodeReview.processFile:
llmConsulted records whether the CodeReviewer was constructed and its
codeReviewFile invoked (the only path that issues LLM completions). -/
structure ProcessFileOutcome where
  status : FileStatus
  violations : List Violation
  llmConsulted : Bool
deriving DecidableEq, Repr

def junkRule : CodebaseRule := ⟨[], [], [], [], []⟩

/-- The per-file control flow of processFile in codeReview.ts, as a function
of the already-filtered applicable rules, the cache-lookup outcome, the
cached violation rows, and the violations the reviewer would produce on a
cache miss. -/
def processFile (allowedRules : List CodebaseRule) (cacheHit : Bool)
    (cachedViolations : List ViolationDetail) (reviewerViolations : List Violation) :
    ProcessFileOutcome :=
  if allowedRules.isEmpty then
    ⟨FileStatus.skipped (js "no matching rules"), [], false⟩
  else if cacheHit then
    ⟨FileStatus.skipped (js "cached"),
      cachedViolations.map fun v =>
        { description := v.description
          line := v.line
          rule := (allowedRules.find? fun r => r.id == v.description).getD
            (allowedRules.headD junkRule)
          validationReasoning := none
          isCached := some true },
      false⟩
  else
    ⟨FileStatus.completed, reviewerViolations, true⟩

/-! ### Rule constructors and frontmatter
(codebaseRules.ts: newRule, parseFrontmatter, getRuleFromFile,
getRulesFromDirectory, createRuleFile) -/

/-- The five glyph code points stripped from rule bodies. -/
def strippedGlyphs : List Char := ['✅', '❌', '✓', '✗', '❎']

/-- The global replace of the five glyphs with the empty string. -/
def stripGlyphs (s : JStr) : JStr :=
  s.filter fun c => !(strippedGlyphs.contains c)

/-- Whether the first character is (ASCII) regex whitespace. -/
def headIsWS : JStr → Bool
  | c :: _ => jsWS c
  | [] => false

/-- The test /^#{1,3}\s/ on an already-trimmed line, with the regex
backtracking unfolded: one to three hash marks followed by whitespace. -/
def isHeadingLine : JStr → Bool
  | '#' :: rest =>
    (match rest with
      | '#' :: rest2 =>
        (match rest2 with
          | '#' :: rest3 => headIsWS rest3 || headIsWS rest2 || headIsWS rest
          | _ => headIsWS rest2 || headIsWS rest)
      | _ => headIsWS rest)
  | _ => false

/-- The body normalisation inside newRule: drop the first non-blank line
when it is a recognised heading (then re-join and trim), and strip the five
glyphs. -/
def processRuleContents (contents : JStr) : JStr :=
  let lines := splitCJ '\n' contents
  let firstNonEmptyLineIndex := lines.findIdx? fun l => !(trimJ l).isEmpty
  let processedContents :=
    match firstNonEmptyLineIndex with
    | some i =>
      if isHeadingLine (trimJ (lines.getD i [])) then
        trimJ (joinSepJ (js "\n") (lines.eraseIdx i))
      else contents
    | none => contents
  stripGlyphs processedContents

/-- The id key of newRule: `directory ? directory + "" + name : name` ---
note the empty separator. -/
def newRuleKey (directory : Option JStr) (name : JStr) : JStr :=
  match directory with
  | some d => if d.isEmpty then name else d ++ name
  | none => name

/-- newRule from codebaseRules.ts, parameterised by the hash function
(hashString is sha256 in the source, an external crypto call). -/
def newRule (hash : JStr → JStr) (directory : Option JStr)
    (name contents includeStr : JStr) : CodebaseRule :=
  { id := hash (newRuleKey directory name)
    directory := directory.getD []
    name := name
    contents := processRuleContents contents
    includeList := splitCJ ',' includeStr }

/-- The replace(/^["']|["']$/g, "") quote-stripping of parseIncludePatterns. -/
def stripOuterQuotes (s : JStr) : JStr :=
  let s1 :=
    match s with
    | c :: rest => if c = '"' || c = '\'' then rest else s
    | [] => []
  match s1.reverse with
  | c :: restRev => if c = '"' || c = '\'' then restRev.reverse else s1
  | [] => s1

/-- splitPreservingBraces from codebaseRules.ts (brace depth is an integer,
as in JavaScript, where unbalanced braces drive it negative). -/
def splitPreservingBracesGo : JStr → Int → JStr → List JStr
  | [], _, current =>
    let t := trimJ current
    if t.isEmpty then [] else [t]
  | c :: cs, braceDepth, current =>
    if c = '{' then splitPreservingBracesGo cs (braceDepth + 1) (current ++ [c])
    else if c = '}' then splitPreservingBracesGo cs (braceDepth - 1) (current ++ [c])
    else if braceDepth = 0 && c = ',' then
      (let t := trimJ current
      if t.isEmpty then splitPreservingBracesGo cs braceDepth []
      else t :: splitPreservingBracesGo cs braceDepth [])
    else splitPreservingBracesGo cs braceDepth (current ++ [c])

def splitPreservingBraces (value : JStr) : List JStr :=
  splitPreservingBracesGo value 0 []

/-- The character scan of parseIncludePatterns handling mixed quoted and
unquoted patterns. -/
def parseIncludePatternsGo : JStr → Bool → Option Char → Int → JStr → List JStr
  | [], _, _, _, current =>
    let t := trimJ current
    if t.isEmpty then [] else [stripOuterQuotes t]
  | c :: cs, inQuotes, quoteChar, braceDepth, current =>
    if !inQuotes && (c = '"' || c = '\'') then
      parseIncludePatternsGo cs true (some c) braceDepth (current ++ [c])
    else if inQuotes && some c = quoteChar then
      parseIncludePatternsGo cs false none braceDepth (current ++ [c])
    else if !inQuotes && c = '{' then
      parseIncludePatternsGo cs inQuotes quoteChar (braceDepth + 1) (current ++ [c])
    else if !inQuotes && c = '}' then
      parseIncludePatternsGo cs inQuotes quoteChar (braceDepth - 1) (current ++ [c])
    else if !inQuotes && braceDepth = 0 && c = ',' then
      (let t := trimJ current
      if t.isEmpty then parseIncludePatternsGo cs inQuotes quoteChar braceDepth []
      else stripOuterQuotes t :: parseIncludePatternsGo cs inQuotes quoteChar braceDepth [])
    else parseIncludePatternsGo cs inQuotes quoteChar braceDepth (current ++ [c])

/-- Model of JavaScript String.prototype.endsWith. -/
def endsWithJ (suf s : JStr) : Bool :=
  startsWithJ suf.reverse s.reverse

/-- parseIncludePatterns from codebaseRules.ts. -/
def parseIncludePatterns (value : JStr) : List JStr :=
  let trimmedValue := trimJ value
  if (startsWithJ (js "\"") trimmedValue && endsWithJ (js "\"") trimmedValue) ||
      (startsWithJ (js "'") trimmedValue && endsWithJ (js "'") trimmedValue) then
    splitPreservingBraces (jsSliceJ trimmedValue 1 (-1))
  else
    parseIncludePatternsGo trimmedValue false none 0 []

/-- Parsed rule content: the frontmatter include list and the body text. -/
structure ParsedRuleContent where
  frontmatterInclude : List JStr
  content : JStr
deriving DecidableEq, Repr

/-- parseFrontmatter from codebaseRules.ts: content.split("---", 3), the
include lines of parts[1], and parts[2] trimmed as the body. -/
def parseFrontmatter (content : JStr) : ParsedRuleContent :=
  if !(startsWithJ (js "---") content) then ⟨[], content⟩
  else
    let parts := (splitDashes content).take 3
    if parts.length < 3 then ⟨[], content⟩
    else
      let frontmatterText := trimJ (parts.getD 1 [])
      let contentText := trimJ (parts.getD 2 [])
      let includePatterns := (splitCJ '\n' frontmatterText).foldl
        (fun acc line =>
          let trimmedLine := trimJ line
          if trimmedLine.isEmpty || !(trimmedLine.contains ':') then acc
          else
            let partsKV := (splitCJ ':' trimmedLine).take 2
            let key := trimJ (partsKV.getD 0 [])
            let value := trimJ (partsKV.getD 1 [])
            if key = js "include" then acc ++ parseIncludePatterns value else acc)
        []
      ⟨includePatterns, contentText⟩

/-- getRuleFromFile(filePath, content) from codebaseRules.ts. -/
def getRuleFromFile (hash : JStr → JStr) (filePath content : JStr) : CodebaseRule :=
  let parsed := parseFrontmatter content
  { id := hash filePath
    directory := []
    name := filePath
    contents := parsed.content
    includeList := parsed.frontmatterInclude }

/-- The rule built for one markdown file inside getRulesFromDirectory: the
id is the hash of subdirectoryPath + "/" + name. -/
def ruleFromDirectoryFile (hash : JStr → JStr) (subdirectoryPath name content : JStr) :
    CodebaseRule :=
  let parsed := parseFrontmatter content
  { id := hash (subdirectoryPath ++ js "/" ++ name)
    directory := subdirectoryPath
    name := name
    contents := parsed.content
    includeList := parsed.frontmatterInclude }

/-- createRuleFile from codebaseRules.ts. -/
def createRuleFile (rule : CodebaseRule) : JStr :=
  js "---\ninclude: " ++ joinSepJ (js ", ") rule.includeList ++ js "\n---\n\n" ++ rule.contents

/-! ### Review cache (src/packages/cli/src/context.ts) -/

structure RuleRow where
  id : JStr
  path : JStr
  sha : JStr
deriving DecidableEq, Repr

structure VisitedFileRow where
  review_file_id : JStr
  fileName : JStr
  fileSha : JStr
deriving DecidableEq, Repr

structure ReviewFileRow where
  id : JStr
  fileName : JStr
  fileSha : JStr
  cost : Int
  rule_ids : List JStr
deriving DecidableEq, Repr

structure ReviewViolationRow where
  id : JStr
  rule_id : JStr
  description : JStr
  fileName : JStr
  fileSha : JStr
  lineNumberStart : Int
  lineNumberEnd : Int
  lineNumberSide : JStr
deriving DecidableEq, Repr

/-- The lowdb DatabaseSchema of context.ts. -/
structure DatabaseSchema where
  rules : List RuleRow
  visited_files : List VisitedFileRow
  review_files : List ReviewFileRow
  review_violations : List ReviewViolationRow
deriving DecidableEq, Repr

/-- getFileSha from context.ts: hashString of "fileName:mtimeMs", with the
filesystem stat modelled as a total map from (root, fileName) to the
modification time in milliseconds. -/
def getFileSha (hash : JStr → JStr) (stat : JStr → JStr → Int) (root fileName : JStr) : JStr :=
  hash (fileName ++ js ":" ++ intToJ (stat root fileName))

/-- The row predicate of the find in hasReviewedFileWithSameHash: matching
fileName and fileSha, and every STORED rule id contained in the current rule
id list (a subset test, not set equality). -/
def reviewRowMatches (fileName hashv : JStr) (ruleIds : List JStr) (f : ReviewFileRow) : Bool :=
  f.fileName == fileName && f.fileSha == hashv &&
    f.rule_ids.all fun id2 => ruleIds.contains id2

/-- hasReviewedFileWithSameHash from context.ts: find the first matching
review_files row; if found, every visited_files row tied to it must have a
matching recomputed freshness token (the source loop returns false on the
first mismatch, which is the same as this conjunction). -/
def hasReviewedFileWithSameHash (hash : JStr → JStr) (stat : JStr → JStr → Int)
    (db : DatabaseSchema) (root fileName hashv : JStr)
    (codebaseRules : List CodebaseRule) : Bool :=
  let ruleIds := codebaseRules.map fun r => hash (createRuleFile r)
  match db.review_files.find? (reviewRowMatches fileName hashv ruleIds) with
  | some file =>
    let visitedFiles := db.visited_files.filter fun v => v.review_file_id == file.id
    visitedFiles.all fun visitedFile =>
      getFileSha hash stat root visitedFile.fileName == visitedFile.fileSha
  | none => false

/-! ## Theorems -/

theorem splitCJ_ne_nil (sep : Char) (s : JStr) : splitCJ sep s ≠ [] := by
  cases s with
  | nil => simp [splitCJ]
  | cons c cs =>
    simp only [splitCJ]
    match h : splitCJ sep cs with
    | [] => simp
    | h' :: t => by_cases hc : c = sep <;> simp [hc]

theorem startsWithJ_le_length (p s : JStr) (h : startsWithJ p s = true) :
    p.length ≤ s.length := by
  induction p generalizing s with
  | nil => simp
  | cons a p ih =>
    cases s with
    | nil => simp [startsWithJ] at h
    | cons b s =>
      simp only [startsWithJ, Bool.and_eq_true] at h
      simpa using ih s h.2

theorem intRangeAnyJ_eq_true_iff (s e : Int) (p : Int → Bool) :
    intRangeAnyJ s e p = true ↔ ∃ l : Int, s ≤ l ∧ l ≤ e ∧ p l = true := by
  unfold intRangeAnyJ
  simp only [List.any_eq_true, List.mem_range]
  constructor
  · rintro ⟨i, hi, hp⟩
    exact ⟨s + i, by omega, by omega, hp⟩
  · rintro ⟨l, hl1, hl2, hp⟩
    refine ⟨(l - s).toNat, by omega, ?_⟩
    have hls : s + ((l - s).toNat : Int) = l := by omega
    rw [hls]
    exact hp

theorem getPatchLineRangesGo_length (lines : List JStr) :
    (getPatchLineRangesGo lines).1.length = (getPatchLineRangesGo lines).2.length := by
  induction lines with
  | nil => rfl
  | cons line rest ih =>
    simp only [getPatchLineRangesGo]
    by_cases h : startsWithJ atat (trimJ line) = true <;> simp [h, ih]

/-! ### Claim C1 -/

theorem ite_false_false (b1 b2 : Bool) (x : Bool) :
    (if b1 then false else if b2 then false else x) = (!b1 && (!b2 && x)) := by
  cases b1 <;> cases b2 <;> simp

theorem validRef_eq (ref : LineReference) (patch : JStr) :
    isLineReferenceValidForPatch ref patch =
      (!((getPatchLineRanges patch).1.isEmpty || (getPatchLineRanges patch).2.isEmpty) &&
        (((if ref.side = Side.left then (getPatchLineRanges patch).1
            else (getPatchLineRanges patch).2).any fun r =>
          decide (r.1 ≤ ref.start) && decide (ref.endLine ≤ r.2)) &&
        intRangeAnyJ ref.start ref.endLine fun l =>
          if ref.side = Side.left then (parseLines patch).2.contains l
          else (parseLines patch).1.contains l)) := by
  unfold isLineReferenceValidForPatch
  rw [ite_false_false]
  simp

/-- Claim C1: for every patch (restricted to structurally well-formed hunk
headers, the domain on which the JavaScript source neither throws nor
produces NaN) and every line reference with 1 <= start <= end,
isLineReferenceValidForPatch returns true iff (a) the reference is fully
contained in at least one hunk range of the patch on its side and (b) at
least one line in [start, end] is a changed line of the patch on that side
(an added new-line number on the right, a removed old-line number on the
left).  A reference covering only context lines fails (b); an empty or
header-less patch has no hunk ranges, so (a) fails and the result is
false. -/
theorem isLineReferenceValidForPatch_iff (patch : JStr) (ref : LineReference)
    (hok : headersOk patch = true) (h1 : 1 ≤ ref.start) (h2 : ref.start ≤ ref.endLine) :
    isLineReferenceValidForPatch ref patch = true ↔
      ((∃ r ∈ sideRanges ref.side patch, r.1 ≤ ref.start ∧ ref.endLine ≤ r.2) ∧
        (∃ l : Int, ref.start ≤ l ∧ l ≤ ref.endLine ∧ l ∈ sideChangedLines ref.side patch)) := by
  rw [validRef_eq]
  obtain ⟨s, e, side⟩ := ref
  have hlen : (getPatchLineRanges patch).1.length = (getPatchLineRanges patch).2.length :=
    getPatchLineRangesGo_length _
  cases side
  case left =>
    simp only [sideRanges, sideChangedLines, Bool.and_eq_true, Bool.not_eq_true',
      Bool.or_eq_false_iff, List.isEmpty_eq_false, List.any_eq_true, decide_eq_true_eq,
      intRangeAnyJ_eq_true_iff, if_pos rfl, ite_true, List.contains, List.elem_iff]
    constructor
    · rintro ⟨-, hr, hl⟩
      exact ⟨hr, hl⟩
    · rintro ⟨⟨r, hr, hrc⟩, hl⟩
      have hne1 : (getPatchLineRanges patch).1 ≠ [] := by
        intro h
        rw [h] at hr
        exact (List.not_mem_nil r) hr
      have hne2 : (getPatchLineRanges patch).2 ≠ [] := by
        intro h
        have : (getPatchLineRanges patch).1.length = 0 := by rw [hlen, h]; rfl
        exact hne1 (List.length_eq_zero.mp this)
      exact ⟨⟨hne1, hne2⟩, ⟨r, hr, hrc⟩, hl⟩
  case right =>
    simp only [sideRanges, sideChangedLines, Bool.and_eq_true, Bool.not_eq_true',
      Bool.or_eq_false_iff, List.isEmpty_eq_false, List.any_eq_true, decide_eq_true_eq,
      intRangeAnyJ_eq_true_iff, reduceCtorEq, if_false, List.contains, List.elem_iff]
    constructor
    · rintro ⟨-, hr, hl⟩
      exact ⟨hr, hl⟩
    · rintro ⟨⟨r, hr, hrc⟩, hl⟩
      have hne2 : (getPatchLineRanges patch).2 ≠ [] := by
        intro h
        rw [h] at hr
        exact (List.not_mem_nil r) hr
      have hne1 : (getPatchLineRanges patch).1 ≠ [] := by
        intro h
        have : (getPatchLineRanges patch).2.length = 0 := by rw [← hlen, h]; rfl
        exact hne2 (List.length_eq_zero.mp this)
      exact ⟨⟨hne1, hne2⟩, ⟨r, hr, hrc⟩, hl⟩

/-- Witness for C1 at the spec's first end-to-end scenario. -/
theorem isLineReferenceValidForPatch_iff_witness :
    isLineReferenceValidForPatch ⟨2, 2, Side.right⟩
      (js "@@ -1,5 +1,6 @@\n line1\n-line2\n+new line\n line3\n line4\n line5") = true :=
  (isLineReferenceValidForPatch_iff
      (js "@@ -1,5 +1,6 @@\n line1\n-line2\n+new line\n line3\n line4\n line5")
      ⟨2, 2, Side.right⟩ (by decide) (by decide) (by decide)).mpr
    ⟨by decide, ⟨2, by decide, by decide, by decide⟩⟩

theorem hunkBodyMatch_length (side : Side) (s e : Int) (body : List JStr) :
    ∀ o n : Int, (hunkBodyMatch side s e o n body).length = body.length := by
  induction body with
  | nil => intro o n; rfl
  | cons line rest ih =>
    intro o n
    unfold hunkBodyMatch
    split_ifs <;> simp [ih]

theorem firstTrue_le_lastTrue (fl : List Bool) (f l : Nat)
    (hf : firstTrue fl = some f) (hl : lastTrue fl = some l) : f ≤ l := by
  induction fl generalizing f l with
  | nil => simp [firstTrue] at hf
  | cons b bs ih =>
    by_cases hb : b = true
    · subst hb
      simp only [firstTrue, if_true, Option.some.injEq] at hf
      omega
    · rw [Bool.not_eq_true] at hb
      subst hb
      simp only [firstTrue, Bool.false_eq_true, if_false, Option.map_eq_some'] at hf
      obtain ⟨f', hf', rfl⟩ := hf
      simp only [lastTrue] at hl
      match hlb : lastTrue bs with
      | some k =>
        rw [hlb] at hl
        simp only [Option.some.injEq] at hl
        have := ih f' k hf' hlb
        omega
      | none =>
        rw [hlb] at hl
        simp at hl

theorem lastTrue_lt_length (fl : List Bool) (l : Nat) (hl : lastTrue fl = some l) :
    l < fl.length := by
  induction fl generalizing l with
  | nil => simp [lastTrue] at hl
  | cons b bs ih =>
    simp only [lastTrue] at hl
    match hlb : lastTrue bs with
    | some k =>
      rw [hlb] at hl
      simp only [Option.some.injEq] at hl
      have := ih k hlb
      simp only [List.length_cons]
      omega
    | none =>
      rw [hlb] at hl
      by_cases hb : b = true
      · subst hb
        simp only [if_true, Option.some.injEq] at hl
        simp only [List.length_cons]
        omega
      · rw [Bool.not_eq_true] at hb
        subst hb
        simp at hl

set_option maxHeartbeats 1000000

theorem specs_step_true (h k : Nat) (tOpt vS vE : Option Nat) (fr : List Bool) :
    (scanSpecTarget h tOpt vS (true :: fr) =
      scanSpecTarget h (if vS = none then some h else tOpt)
        (if vS = none then some k else vS) fr) ∧
    (scanSpecVS k vS (true :: fr) =
      scanSpecVS (k + 1) (if vS = none then some k else vS) fr) ∧
    (scanSpecVE k vE (true :: fr) = scanSpecVE (k + 1) (some k) fr) := by
  refine ⟨?_, ?_, ?_⟩
  · cases vS <;> simp [scanSpecTarget, firstTrue] <;> cases firstTrue fr <;> rfl
  · cases vS <;> simp [scanSpecVS, firstTrue]
  · simp only [scanSpecVE, lastTrue]
    cases hl : lastTrue fr
    · simp
    · simp only []
      congr 1
      omega

theorem specs_step_false (h k : Nat) (tOpt vS vE : Option Nat) (fr : List Bool) :
    (scanSpecTarget h tOpt vS (false :: fr) = scanSpecTarget h tOpt vS fr) ∧
    (scanSpecVS k vS (false :: fr) = scanSpecVS (k + 1) vS fr) ∧
    (scanSpecVE k vE (false :: fr) = scanSpecVE (k + 1) vE fr) := by
  refine ⟨?_, ?_, ?_⟩
  · cases vS <;> simp [scanSpecTarget, firstTrue] <;> cases firstTrue fr <;> rfl
  · cases vS <;> simp [scanSpecVS, firstTrue]
    · cases firstTrue fr <;> simp <;> omega
  · simp only [scanSpecVE, lastTrue]
    cases hl : lastTrue fr
    · simp
    · simp only []
      congr 1
      omega

set_option maxHeartbeats 1000000

theorem scan1_foldl_body (side : Side) (s e : Int) (body : List JStr) :
    ∀ (k : Nat) (a c : Int) (h : Nat) (tOpt vS vE : Option Nat),
      (∀ l ∈ body, startsWithJ atat l = false) →
      ∃ a' c',
        (List.enumFrom k body).foldl (scan1Step side s e)
            ⟨a, c, true, some h, tOpt, vS, vE⟩ =
          ⟨a', c', true, some h,
            scanSpecTarget h tOpt vS (hunkBodyMatch side s e a c body),
            scanSpecVS k vS (hunkBodyMatch side s e a c body),
            scanSpecVE k vE (hunkBodyMatch side s e a c body)⟩ := by
  induction body with
  | nil =>
    intro k a c h tOpt vS vE hb
    refine ⟨a, c, ?_⟩
    cases vS <;> rfl
  | cons line rest ih =>
    intro k a c h tOpt vS vE hb
    have hline : startsWithJ atat line = false := hb line (List.mem_cons_self _ _)
    have hrest : ∀ l ∈ rest, startsWithJ atat l = false := fun l hl => hb l (List.mem_cons_of_mem _ hl)
    rw [List.enumFrom, List.foldl_cons]
    by_cases hplus : startsWithJ (js "+") line = true
    · -- addition line
      have hflags : hunkBodyMatch side s e a c (line :: rest) =
          decide (side = Side.right ∧ s ≤ c ∧ c ≤ e) ::
            hunkBodyMatch side s e a (c + 1) rest := by
        simp only [hunkBodyMatch, hplus, if_true]
      by_cases hcond : side = Side.right ∧ s ≤ c ∧ c ≤ e
      · have hdec : decide (side = Side.right ∧ s ≤ c ∧ c ≤ e) = true := by
          exact decide_eq_true hcond
        cases vS with
        | none =>
          have hstep : scan1Step side s e ⟨a, c, true, some h, tOpt, none, vE⟩ (k, line) =
              ⟨a, c + 1, true, some h, some h, some k, some k⟩ := by
            simp [scan1Step, markViolation, hline, hplus, hcond]
          rw [hstep]
          obtain ⟨a', c', heq⟩ := ih (k + 1) a (c + 1) h (some h) (some k) (some k) hrest
          refine ⟨a', c', ?_⟩
          rw [heq, hflags, hdec]
          obtain ⟨h1, h2, h3⟩ := specs_step_true h k tOpt (none : Option Nat) vE
            (hunkBodyMatch side s e a (c + 1) rest)
          simp only [if_true] at h1 h2 h3
          rw [h1, h2, h3]
        | some v =>
          have hstep : scan1Step side s e ⟨a, c, true, some h, tOpt, some v, vE⟩ (k, line) =
              ⟨a, c + 1, true, some h, tOpt, some v, some k⟩ := by
            simp [scan1Step, markViolation, hline, hplus, hcond]
          rw [hstep]
          obtain ⟨a', c', heq⟩ := ih (k + 1) a (c + 1) h tOpt (some v) (some k) hrest
          refine ⟨a', c', ?_⟩
          rw [heq, hflags, hdec]
          obtain ⟨h1, h2, h3⟩ := specs_step_true h k tOpt (some v) vE
            (hunkBodyMatch side s e a (c + 1) rest)
          simp only [reduceCtorEq, if_false] at h1 h2 h3
          rw [h1, h2, h3]
      · have hdec : decide (side = Side.right ∧ s ≤ c ∧ c ≤ e) = false := by
          exact decide_eq_false hcond
        have hstep : scan1Step side s e ⟨a, c, true, some h, tOpt, vS, vE⟩ (k, line) =
            ⟨a, c + 1, true, some h, tOpt, vS, vE⟩ := by
          simp [scan1Step, markViolation, hline, hplus, hcond]
        rw [hstep]
        obtain ⟨a', c', heq⟩ := ih (k + 1) a (c + 1) h tOpt vS vE hrest
        refine ⟨a', c', ?_⟩
        rw [heq, hflags, hdec]
        obtain ⟨h1, h2, h3⟩ := specs_step_false h k tOpt vS vE
          (hunkBodyMatch side s e a (c + 1) rest)
        rw [h1, h2, h3]
    · -- not an addition line
      by_cases hminus : startsWithJ (js "-") line = true
      · -- deletion line
        have hflags : hunkBodyMatch side s e a c (line :: rest) =
            decide (side = Side.left ∧ s ≤ a ∧ a ≤ e) ::
              hunkBodyMatch side s e (a + 1) c rest := by
          simp only [hunkBodyMatch, hplus, hminus, if_true, Bool.false_eq_true, if_false]
        by_cases hcond : side = Side.left ∧ s ≤ a ∧ a ≤ e
        · have hdec : decide (side = Side.left ∧ s ≤ a ∧ a ≤ e) = true :=
            decide_eq_true hcond
          cases vS with
          | none =>
            have hstep : scan1Step side s e ⟨a, c, true, some h, tOpt, none, vE⟩ (k, line) =
                ⟨a + 1, c, true, some h, some h, some k, some k⟩ := by
              simp [scan1Step, markViolation, hline, hplus, hminus, hcond]
            rw [hstep]
            obtain ⟨a', c', heq⟩ := ih (k + 1) (a + 1) c h (some h) (some k) (some k) hrest
            refine ⟨a', c', ?_⟩
            rw [heq, hflags, hdec]
            obtain ⟨h1, h2, h3⟩ := specs_step_true h k tOpt (none : Option Nat) vE
              (hunkBodyMatch side s e (a + 1) c rest)
            simp only [if_true] at h1 h2 h3
            rw [h1, h2, h3]
          | some v =>
            have hstep : scan1Step side s e ⟨a, c, true, some h, tOpt, some v, vE⟩ (k, line) =
                ⟨a + 1, c, true, some h, tOpt, some v, some k⟩ := by
              simp [scan1Step, markViolation, hline, hplus, hminus, hcond]
            rw [hstep]
            obtain ⟨a', c', heq⟩ := ih (k + 1) (a + 1) c h tOpt (some v) (some k) hrest
            refine ⟨a', c', ?_⟩
            rw [heq, hflags, hdec]
            obtain ⟨h1, h2, h3⟩ := specs_step_true h k tOpt (some v) vE
              (hunkBodyMatch side s e (a + 1) c rest)
            simp only [reduceCtorEq, if_false] at h1 h2 h3
            rw [h1, h2, h3]
        · have hdec : decide (side = Side.left ∧ s ≤ a ∧ a ≤ e) = false :=
            decide_eq_false hcond
          have hstep : scan1Step side s e ⟨a, c, true, some h, tOpt, vS, vE⟩ (k, line) =
              ⟨a + 1, c, true, some h, tOpt, vS, vE⟩ := by
            simp [scan1Step, markViolation, hline, hplus, hminus, hcond]
          rw [hstep]
          obtain ⟨a', c', heq⟩ := ih (k + 1) (a + 1) c h tOpt vS vE hrest
          refine ⟨a', c', ?_⟩
          rw [heq, hflags, hdec]
          obtain ⟨h1, h2, h3⟩ := specs_step_false h k tOpt vS vE
            (hunkBodyMatch side s e (a + 1) c rest)
          rw [h1, h2, h3]
      · by_cases hmeta : startsWithJ (js "\\") line = true
        · -- meta line: no state change, false flag
          have hflags : hunkBodyMatch side s e a c (line :: rest) =
              false :: hunkBodyMatch side s e a c rest := by
            simp only [hunkBodyMatch, hplus, hminus, hmeta, if_true, Bool.false_eq_true, if_false]
          have hstep : scan1Step side s e ⟨a, c, true, some h, tOpt, vS, vE⟩ (k, line) =
              ⟨a, c, true, some h, tOpt, vS, vE⟩ := by
            simp [scan1Step, markViolation, hline, hplus, hminus, hmeta]
          rw [hstep]
          obtain ⟨a', c', heq⟩ := ih (k + 1) a c h tOpt vS vE hrest
          refine ⟨a', c', ?_⟩
          rw [heq, hflags]
          obtain ⟨h1, h2, h3⟩ := specs_step_false h k tOpt vS vE
            (hunkBodyMatch side s e a c rest)
          rw [h1, h2, h3]
        · -- context line
          have hflags : hunkBodyMatch side s e a c (line :: rest) =
              (decide (side = Side.right ∧ s ≤ c ∧ c ≤ e) ||
                decide (side = Side.left ∧ s ≤ a ∧ a ≤ e)) ::
                hunkBodyMatch side s e (a + 1) (c + 1) rest := by
            simp only [hunkBodyMatch, hplus, hminus, hmeta, Bool.false_eq_true, if_false]
          by_cases hcondR : side = Side.right ∧ s ≤ c ∧ c ≤ e
          · have hcondL : ¬ (side = Side.left ∧ s ≤ a ∧ a ≤ e) := by
              intro hc
              rw [hcondR.1] at hc
              exact Side.noConfusion hc.1
            have hdec : (decide (side = Side.right ∧ s ≤ c ∧ c ≤ e) ||
                decide (side = Side.left ∧ s ≤ a ∧ a ≤ e)) = true := by
              rw [decide_eq_true hcondR]
              rfl
            cases vS with
            | none =>
              have hstep : scan1Step side s e ⟨a, c, true, some h, tOpt, none, vE⟩ (k, line) =
                  ⟨a + 1, c + 1, true, some h, some h, some k, some k⟩ := by
                simp [scan1Step, markViolation, hline, hplus, hminus, hmeta, hcondR, hcondL]
              rw [hstep]
              obtain ⟨a', c', heq⟩ := ih (k + 1) (a + 1) (c + 1) h (some h) (some k) (some k) hrest
              refine ⟨a', c', ?_⟩
              rw [heq, hflags, hdec]
              obtain ⟨h1, h2, h3⟩ := specs_step_true h k tOpt (none : Option Nat) vE
                (hunkBodyMatch side s e (a + 1) (c + 1) rest)
              simp only [if_true] at h1 h2 h3
              rw [h1, h2, h3]
            | some v =>
              have hstep : scan1Step side s e ⟨a, c, true, some h, tOpt, some v, vE⟩ (k, line) =
                  ⟨a + 1, c + 1, true, some h, tOpt, some v, some k⟩ := by
                simp [scan1Step, markViolation, hline, hplus, hminus, hmeta, hcondR, hcondL]
              rw [hstep]
              obtain ⟨a', c', heq⟩ := ih (k + 1) (a + 1) (c + 1) h tOpt (some v) (some k) hrest
              refine ⟨a', c', ?_⟩
              rw [heq, hflags, hdec]
              obtain ⟨h1, h2, h3⟩ := specs_step_true h k tOpt (some v) vE
                (hunkBodyMatch side s e (a + 1) (c + 1) rest)
              simp only [reduceCtorEq, if_false] at h1 h2 h3
              rw [h1, h2, h3]
          · by_cases hcondL : side = Side.left ∧ s ≤ a ∧ a ≤ e
            · have hdec : (decide (side = Side.right ∧ s ≤ c ∧ c ≤ e) ||
                  decide (side = Side.left ∧ s ≤ a ∧ a ≤ e)) = true := by
                rw [decide_eq_true hcondL]
                rw [Bool.or_true]
              cases vS with
              | none =>
                have hstep : scan1Step side s e ⟨a, c, true, some h, tOpt, none, vE⟩ (k, line) =
                    ⟨a + 1, c + 1, true, some h, some h, some k, some k⟩ := by
                  simp [scan1Step, markViolation, hline, hplus, hminus, hmeta, hcondR, hcondL]
                rw [hstep]
                obtain ⟨a', c', heq⟩ := ih (k + 1) (a + 1) (c + 1) h (some h) (some k) (some k) hrest
                refine ⟨a', c', ?_⟩
                rw [heq, hflags, hdec]
                obtain ⟨h1, h2, h3⟩ := specs_step_true h k tOpt (none : Option Nat) vE
                  (hunkBodyMatch side s e (a + 1) (c + 1) rest)
                simp only [if_true] at h1 h2 h3
                rw [h1, h2, h3]
              | some v =>
                have hstep : scan1Step side s e ⟨a, c, true, some h, tOpt, some v, vE⟩ (k, line) =
                    ⟨a + 1, c + 1, true, some h, tOpt, some v, some k⟩ := by
                  simp [scan1Step, markViolation, hline, hplus, hminus, hmeta, hcondR, hcondL]
                rw [hstep]
                obtain ⟨a', c', heq⟩ := ih (k + 1) (a + 1) (c + 1) h tOpt (some v) (some k) hrest
                refine ⟨a', c', ?_⟩
                rw [heq, hflags, hdec]
                obtain ⟨h1, h2, h3⟩ := specs_step_true h k tOpt (some v) vE
                  (hunkBodyMatch side s e (a + 1) (c + 1) rest)
                simp only [reduceCtorEq, if_false] at h1 h2 h3
                rw [h1, h2, h3]
            · have hdec : (decide (side = Side.right ∧ s ≤ c ∧ c ≤ e) ||
                  decide (side = Side.left ∧ s ≤ a ∧ a ≤ e)) = false := by
                rw [decide_eq_false hcondR, decide_eq_false hcondL]
                rfl
              have hstep : scan1Step side s e ⟨a, c, true, some h, tOpt, vS, vE⟩ (k, line) =
                  ⟨a + 1, c + 1, true, some h, tOpt, vS, vE⟩ := by
                simp [scan1Step, markViolation, hline, hplus, hminus, hmeta, hcondR, hcondL]
              rw [hstep]
              obtain ⟨a', c', heq⟩ := ih (k + 1) (a + 1) (c + 1) h tOpt vS vE hrest
              refine ⟨a', c', ?_⟩
              rw [heq, hflags, hdec]
              obtain ⟨h1, h2, h3⟩ := specs_step_false h k tOpt vS vE
                (hunkBodyMatch side s e (a + 1) (c + 1) rest)
              rw [h1, h2, h3]

theorem getD_range_slice {α : Type} (xs : List α) (d : α) :
    ∀ (cnt f : Nat), f + cnt ≤ xs.length →
      (List.range cnt).map (fun j => xs.getD (f + j) d) = (xs.drop f).take cnt := by
  intro cnt
  induction cnt with
  | zero => intro f h; simp
  | succ n ih =>
    intro f h
    have hf : f < xs.length := by omega
    rw [List.range_succ_eq_map]
    simp only [List.map_cons, List.map_map, Nat.add_zero]
    rw [List.drop_eq_getElem_cons hf, List.take_succ_cons]
    have h1 : xs.getD f d = xs[f] := List.getD_eq_getElem xs d hf
    rw [h1]
    congr 1
    have h2 : ((fun j => xs.getD (f + j) d) ∘ Nat.succ) = fun j => xs.getD ((f + 1) + j) d := by
      funext j
      simp only [Function.comp_apply]
      congr 1
      omega
    rw [h2]
    exact ih (f + 1) (by omega)

theorem patchLinesMatch_length (side : Side) (s e : Int) (ls : List JStr) :
    ∀ (o n : Int) (inH : Bool), (patchLinesMatch side s e o n inH ls).length = ls.length := by
  induction ls with
  | nil => intro o n inH; rfl
  | cons line rest ih =>
    intro o n inH
    unfold patchLinesMatch
    split_ifs <;> simp [ih]

theorem firstTrue_replicate_false (m : Nat) :
    firstTrue (List.replicate m false) = none := by
  induction m with
  | zero => rfl
  | succ n ih => simp [List.replicate_succ, firstTrue, ih]

theorem lastTrue_replicate_false (m : Nat) :
    lastTrue (List.replicate m false) = none := by
  induction m with
  | zero => rfl
  | succ n ih => simp [List.replicate_succ, lastTrue, ih]

theorem firstTrue_append_of_some (xs ys : List Bool) (k : Nat)
    (h : firstTrue xs = some k) : firstTrue (xs ++ ys) = some k := by
  induction xs generalizing k with
  | nil => simp [firstTrue] at h
  | cons b bs ih =>
    cases b with
    | true =>
      simp only [firstTrue, if_true] at h ⊢
      exact h
    | false =>
      simp only [firstTrue, Bool.false_eq_true, if_false, Option.map_eq_some'] at h
      obtain ⟨k0, hk0, rfl⟩ := h
      rw [List.cons_append]
      have h2 : firstTrue (bs ++ ys) = some k0 := ih k0 hk0
      simp [firstTrue, h2]

theorem firstTrue_append_of_none (xs ys : List Bool) (h : firstTrue xs = none) :
    firstTrue (xs ++ ys) = (firstTrue ys).map (xs.length + ·) := by
  induction xs with
  | nil =>
    simp only [List.nil_append, List.length_nil]
    cases hy : firstTrue ys <;> simp
  | cons b bs ih =>
    cases b with
    | true => simp [firstTrue] at h
    | false =>
      simp only [firstTrue, Bool.false_eq_true, if_false, Option.map_eq_none'] at h
      rw [List.cons_append]
      have h2 := ih h
      simp only [firstTrue, Bool.false_eq_true, if_false, h2, List.length_cons]
      cases hy : firstTrue ys with
      | none => rfl
      | some y =>
        simp only [Option.map_some', Option.some.injEq]
        omega

theorem lastTrue_append_of_some (xs ys : List Bool) (k : Nat)
    (h : lastTrue ys = some k) : lastTrue (xs ++ ys) = some (xs.length + k) := by
  induction xs with
  | nil =>
    rw [List.nil_append, h]
    simp
  | cons b bs ih =>
    rw [List.cons_append]
    simp only [lastTrue, ih, List.length_cons]
    show some (bs.length + k + 1) = some (bs.length + 1 + k)
    congr 1
    omega

theorem lastTrue_append_of_none (xs ys : List Bool) (h : lastTrue ys = none) :
    lastTrue (xs ++ ys) = lastTrue xs := by
  induction xs with
  | nil =>
    rw [List.nil_append, h]
    rfl
  | cons b bs ih =>
    rw [List.cons_append]
    simp only [lastTrue, ih]

theorem target_conjs_step_false (k : Nat) (tOpt vS T : Option Nat) (fl : List Bool)
    (ht2 : vS = none → ∀ fi, firstTrue fl = some fi → ∃ tH, T = some tH ∧ tH < (k + 1) + fi)
    (ht3 : vS = none → firstTrue fl = none → T = tOpt) :
    (vS = none → ∀ fi, firstTrue (false :: fl) = some fi →
      ∃ tH, T = some tH ∧ tH < k + fi) ∧
    (vS = none → firstTrue (false :: fl) = none → T = tOpt) := by
  constructor
  · intro hvs fi hfi
    simp only [firstTrue, Bool.false_eq_true, if_false, Option.map_eq_some'] at hfi
    obtain ⟨f0, hf0, rfl⟩ := hfi
    obtain ⟨tH, hT, hlt⟩ := ht2 hvs f0 hf0
    exact ⟨tH, hT, by omega⟩
  · intro hvs hfi
    simp only [firstTrue, Bool.false_eq_true, if_false, Option.map_eq_none'] at hfi
    exact ht3 hvs hfi

theorem getD_pre_mid {α : Type} (pre : List α) (x : α) (body rest : List α) (d : α)
    (i : Nat) (hi : i < body.length) :
    (pre ++ (x :: (body ++ rest))).getD (pre.length + 1 + i) d = body.getD i d := by
  simp only [List.getD]
  rw [List.get?_append_right (by omega)]
  have h1 : pre.length + 1 + i - pre.length = i + 1 := by omega
  rw [h1]
  show ((body ++ rest).get? i).getD d = (body.get? i).getD d
  rw [List.get?_append hi]

set_option maxHeartbeats 2000000

theorem scan1_foldl_lines (side : Side) (s e : Int) (ls : List JStr) :
    ∀ (k : Nat) (a c : Int) (inH : Bool) (chs tOpt vS vE : Option Nat),
      (inH = true → ∃ j, chs = some j ∧ j < k) →
      ∃ (a2 c2 : Int) (inH2 : Bool) (chs2 T : Option Nat),
        (List.enumFrom k ls).foldl (scan1Step side s e) ⟨a, c, inH, chs, tOpt, vS, vE⟩ =
          ⟨a2, c2, inH2, chs2, T,
            scanSpecVS k vS (patchLinesMatch side s e a c inH ls),
            scanSpecVE k vE (patchLinesMatch side s e a c inH ls)⟩ ∧
        (vS.isSome = true → T = tOpt) ∧
        (vS = none →
          ∀ fi, firstTrue (patchLinesMatch side s e a c inH ls) = some fi →
            ∃ tH, T = some tH ∧ tH < k + fi) ∧
        (vS = none → firstTrue (patchLinesMatch side s e a c inH ls) = none → T = tOpt) := by
  induction ls with
  | nil =>
    intro k a c inH chs tOpt vS vE hinv
    refine ⟨a, c, inH, chs, tOpt, ?_, fun _ => rfl, ?_, fun _ _ => rfl⟩
    · cases vS <;> rfl
    · intro hvs fi hfi
      simp [patchLinesMatch, firstTrue] at hfi
  | cons line rest ih =>
    intro k a c inH chs tOpt vS vE hinv
    rw [List.enumFrom, List.foldl_cons]
    by_cases hat : startsWithJ atat line = true
    · -- a hunk header line: counters reset, never flagged
      have hflags : patchLinesMatch side s e a c inH (line :: rest) =
          false :: patchLinesMatch side s e ((hunkOldStart line).getD 0)
            ((hunkNewStart line).getD 0) true rest := by
        simp only [patchLinesMatch, hat, if_true]
      have hstep : scan1Step side s e ⟨a, c, inH, chs, tOpt, vS, vE⟩ (k, line) =
          ⟨(hunkOldStart line).getD 0, (hunkNewStart line).getD 0, true, some k,
            tOpt, vS, vE⟩ := by
        simp [scan1Step, hat]
      rw [hstep]
      obtain ⟨a2, c2, inH2, chs2, T, heq, ht1, ht2, ht3⟩ :=
        ih (k + 1) ((hunkOldStart line).getD 0) ((hunkNewStart line).getD 0) true (some k)
          tOpt vS vE (fun _ => ⟨k, rfl, by omega⟩)
      refine ⟨a2, c2, inH2, chs2, T, ?_, ht1, ?_, ?_⟩
      · rw [heq, hflags]
        obtain ⟨h1, h2, h3⟩ := specs_step_false 0 k tOpt vS vE
          (patchLinesMatch side s e ((hunkOldStart line).getD 0)
            ((hunkNewStart line).getD 0) true rest)
        rw [h2, h3]
      · rw [hflags]
        exact (target_conjs_step_false k tOpt vS T _ ht2 ht3).1
      · rw [hflags]
        exact (target_conjs_step_false k tOpt vS T _ ht2 ht3).2
    · rw [Bool.not_eq_true] at hat
      by_cases hinb : inH = true
      · subst hinb
        obtain ⟨j, hchs, hj⟩ := hinv rfl
        subst hchs
        by_cases hplus : startsWithJ (js "+") line = true
        · -- an addition line
          have hflags : patchLinesMatch side s e a c true (line :: rest) =
              decide (side = Side.right ∧ s ≤ c ∧ c ≤ e) ::
                patchLinesMatch side s e a (c + 1) true rest := by
            simp only [patchLinesMatch, hat, Bool.false_eq_true, if_false, Bool.not_true,
              hplus, if_true]
          by_cases hcond : side = Side.right ∧ s ≤ c ∧ c ≤ e
          · have hdec : decide (side = Side.right ∧ s ≤ c ∧ c ≤ e) = true :=
              decide_eq_true hcond
            cases vS with
            | none =>
              have hstep : scan1Step side s e ⟨a, c, true, some j, tOpt, none, vE⟩ (k, line) =
                  ⟨a, c + 1, true, some j, some j, some k, some k⟩ := by
                simp [scan1Step, markViolation, hat, hplus, hcond]
              rw [hstep]
              obtain ⟨a2, c2, inH2, chs2, T, heq, ht1, ht2, ht3⟩ :=
                ih (k + 1) a (c + 1) true (some j) (some j) (some k) (some k)
                  (fun _ => ⟨j, rfl, by omega⟩)
              refine ⟨a2, c2, inH2, chs2, T, ?_, ?_, ?_, ?_⟩
              · rw [heq, hflags, hdec]
                obtain ⟨h1, h2, h3⟩ := specs_step_true 0 k tOpt (none : Option Nat) vE
                  (patchLinesMatch side s e a (c + 1) true rest)
                simp only [if_true] at h2 h3
                rw [h2, h3]
              · intro hvs
                exact absurd hvs (by simp)
              · intro _ fi hfi
                exact ⟨j, ht1 rfl, by omega⟩
              · intro _ hfi
                rw [hflags, hdec] at hfi
                simp [firstTrue] at hfi
            | some v =>
              have hstep : scan1Step side s e ⟨a, c, true, some j, tOpt, some v, vE⟩ (k, line) =
                  ⟨a, c + 1, true, some j, tOpt, some v, some k⟩ := by
                simp [scan1Step, markViolation, hat, hplus, hcond]
              rw [hstep]
              obtain ⟨a2, c2, inH2, chs2, T, heq, ht1, ht2, ht3⟩ :=
                ih (k + 1) a (c + 1) true (some j) tOpt (some v) (some k)
                  (fun _ => ⟨j, rfl, by omega⟩)
              refine ⟨a2, c2, inH2, chs2, T, ?_, fun _ => ht1 rfl, ?_, ?_⟩
              · rw [heq, hflags, hdec]
                obtain ⟨h1, h2, h3⟩ := specs_step_true 0 k tOpt (some v) vE
                  (patchLinesMatch side s e a (c + 1) true rest)
                simp only [reduceCtorEq, if_false] at h2 h3
                rw [h2, h3]
              · intro hvs
                exact absurd hvs (by simp)
              · intro hvs
                exact absurd hvs (by simp)
          · have hdec : decide (side = Side.right ∧ s ≤ c ∧ c ≤ e) = false :=
              decide_eq_false hcond
            have hstep : scan1Step side s e ⟨a, c, true, some j, tOpt, vS, vE⟩ (k, line) =
                ⟨a, c + 1, true, some j, tOpt, vS, vE⟩ := by
              simp [scan1Step, markViolation, hat, hplus, hcond]
            rw [hstep]
            obtain ⟨a2, c2, inH2, chs2, T, heq, ht1, ht2, ht3⟩ :=
              ih (k + 1) a (c + 1) true (some j) tOpt vS vE (fun _ => ⟨j, rfl, by omega⟩)
            refine ⟨a2, c2, inH2, chs2, T, ?_, ht1, ?_, ?_⟩
            · rw [heq, hflags, hdec]
              obtain ⟨h1, h2, h3⟩ := specs_step_false 0 k tOpt vS vE
                (patchLinesMatch side s e a (c + 1) true rest)
              rw [h2, h3]
            · rw [hflags, hdec]
              exact (target_conjs_step_false k tOpt vS T _ ht2 ht3).1
            · rw [hflags, hdec]
              exact (target_conjs_step_false k tOpt vS T _ ht2 ht3).2
        · rw [Bool.not_eq_true] at hplus
          by_cases hminus : startsWithJ (js "-") line = true
          · -- a deletion line
            have hflags : patchLinesMatch side s e a c true (line :: rest) =
                decide (side = Side.left ∧ s ≤ a ∧ a ≤ e) ::
                  patchLinesMatch side s e (a + 1) c true rest := by
              simp only [patchLinesMatch, hat, hplus, Bool.false_eq_true, if_false,
                Bool.not_true, hminus, if_true]
            by_cases hcond : side = Side.left ∧ s ≤ a ∧ a ≤ e
            · have hdec : decide (side = Side.left ∧ s ≤ a ∧ a ≤ e) = true :=
                decide_eq_true hcond
              cases vS with
              | none =>
                have hstep : scan1Step side s e ⟨a, c, true, some j, tOpt, none, vE⟩ (k, line) =
                    ⟨a + 1, c, true, some j, some j, some k, some k⟩ := by
                  simp [scan1Step, markViolation, hat, hplus, hminus, hcond]
                rw [hstep]
                obtain ⟨a2, c2, inH2, chs2, T, heq, ht1, ht2, ht3⟩ :=
                  ih (k + 1) (a + 1) c true (some j) (some j) (some k) (some k)
                    (fun _ => ⟨j, rfl, by omega⟩)
                refine ⟨a2, c2, inH2, chs2, T, ?_, ?_, ?_, ?_⟩
                · rw [heq, hflags, hdec]
                  obtain ⟨h1, h2, h3⟩ := specs_step_true 0 k tOpt (none : Option Nat) vE
                    (patchLinesMatch side s e (a + 1) c true rest)
                  simp only [if_true] at h2 h3
                  rw [h2, h3]
                · intro hvs
                  exact absurd hvs (by simp)
                · intro _ fi hfi
                  exact ⟨j, ht1 rfl, by omega⟩
                · intro _ hfi
                  rw [hflags, hdec] at hfi
                  simp [firstTrue] at hfi
              | some v =>
                have hstep : scan1Step side s e ⟨a, c, true, some j, tOpt, some v, vE⟩ (k, line) =
                    ⟨a + 1, c, true, some j, tOpt, some v, some k⟩ := by
                  simp [scan1Step, markViolation, hat, hplus, hminus, hcond]
                rw [hstep]
                obtain ⟨a2, c2, inH2, chs2, T, heq, ht1, ht2, ht3⟩ :=
                  ih (k + 1) (a + 1) c true (some j) tOpt (some v) (some k)
                    (fun _ => ⟨j, rfl, by omega⟩)
                refine ⟨a2, c2, inH2, chs2, T, ?_, fun _ => ht1 rfl, ?_, ?_⟩
                · rw [heq, hflags, hdec]
                  obtain ⟨h1, h2, h3⟩ := specs_step_true 0 k tOpt (some v) vE
                    (patchLinesMatch side s e (a + 1) c true rest)
                  simp only [reduceCtorEq, if_false] at h2 h3
                  rw [h2, h3]
                · intro hvs
                  exact absurd hvs (by simp)
                · intro hvs
                  exact absurd hvs (by simp)
            · have hdec : decide (side = Side.left ∧ s ≤ a ∧ a ≤ e) = false :=
                decide_eq_false hcond
              have hstep : scan1Step side s e ⟨a, c, true, some j, tOpt, vS, vE⟩ (k, line) =
                  ⟨a + 1, c, true, some j, tOpt, vS, vE⟩ := by
                simp [scan1Step, markViolation, hat, hplus, hminus, hcond]
              rw [hstep]
              obtain ⟨a2, c2, inH2, chs2, T, heq, ht1, ht2, ht3⟩ :=
                ih (k + 1) (a + 1) c true (some j) tOpt vS vE (fun _ => ⟨j, rfl, by omega⟩)
              refine ⟨a2, c2, inH2, chs2, T, ?_, ht1, ?_, ?_⟩
              · rw [heq, hflags, hdec]
                obtain ⟨h1, h2, h3⟩ := specs_step_false 0 k tOpt vS vE
                  (patchLinesMatch side s e (a + 1) c true rest)
                rw [h2, h3]
              · rw [hflags, hdec]
                exact (target_conjs_step_false k tOpt vS T _ ht2 ht3).1
              · rw [hflags, hdec]
                exact (target_conjs_step_false k tOpt vS T _ ht2 ht3).2
          · rw [Bool.not_eq_true] at hminus
            by_cases hmeta : startsWithJ (js "\\") line = true
            · -- a "no newline" meta line: no state change, never flagged
              have hflags : patchLinesMatch side s e a c true (line :: rest) =
                  false :: patchLinesMatch side s e a c true rest := by
                simp only [patchLinesMatch, hat, hplus, hminus, Bool.false_eq_true, if_false,
                  Bool.not_true, hmeta, if_true]
              have hstep : scan1Step side s e ⟨a, c, true, some j, tOpt, vS, vE⟩ (k, line) =
                  ⟨a, c, true, some j, tOpt, vS, vE⟩ := by
                simp [scan1Step, hat, hplus, hminus, hmeta]
              rw [hstep]
              obtain ⟨a2, c2, inH2, chs2, T, heq, ht1, ht2, ht3⟩ :=
                ih (k + 1) a c true (some j) tOpt vS vE (fun _ => ⟨j, rfl, by omega⟩)
              refine ⟨a2, c2, inH2, chs2, T, ?_, ht1, ?_, ?_⟩
              · rw [heq, hflags]
                obtain ⟨h1, h2, h3⟩ := specs_step_false 0 k tOpt vS vE
                  (patchLinesMatch side s e a c true rest)
                rw [h2, h3]
              · rw [hflags]
                exact (target_conjs_step_false k tOpt vS T _ ht2 ht3).1
              · rw [hflags]
                exact (target_conjs_step_false k tOpt vS T _ ht2 ht3).2
            · rw [Bool.not_eq_true] at hmeta
              -- a context line
              have hflags : patchLinesMatch side s e a c true (line :: rest) =
                  (decide (side = Side.right ∧ s ≤ c ∧ c ≤ e) ||
                    decide (side = Side.left ∧ s ≤ a ∧ a ≤ e)) ::
                    patchLinesMatch side s e (a + 1) (c + 1) true rest := by
                simp only [patchLinesMatch, hat, hplus, hminus, hmeta, Bool.false_eq_true,
                  if_false, Bool.not_true, if_true]
              by_cases hcondR : side = Side.right ∧ s ≤ c ∧ c ≤ e
              · have hcondL : ¬ (side = Side.left ∧ s ≤ a ∧ a ≤ e) := by
                  intro hcl
                  rw [hcondR.1] at hcl
                  exact Side.noConfusion hcl.1
                have hdec : (decide (side = Side.right ∧ s ≤ c ∧ c ≤ e) ||
                    decide (side = Side.left ∧ s ≤ a ∧ a ≤ e)) = true := by
                  rw [decide_eq_true hcondR]
                  rfl
                cases vS with
                | none =>
                  have hstep : scan1Step side s e ⟨a, c, true, some j, tOpt, none, vE⟩ (k, line) =
                      ⟨a + 1, c + 1, true, some j, some j, some k, some k⟩ := by
                    simp [scan1Step, markViolation, hat, hplus, hminus, hmeta, hcondR, hcondL]
                  rw [hstep]
                  obtain ⟨a2, c2, inH2, chs2, T, heq, ht1, ht2, ht3⟩ :=
                    ih (k + 1) (a + 1) (c + 1) true (some j) (some j) (some k) (some k)
                      (fun _ => ⟨j, rfl, by omega⟩)
                  refine ⟨a2, c2, inH2, chs2, T, ?_, ?_, ?_, ?_⟩
                  · rw [heq, hflags, hdec]
                    obtain ⟨h1, h2, h3⟩ := specs_step_true 0 k tOpt (none : Option Nat) vE
                      (patchLinesMatch side s e (a + 1) (c + 1) true rest)
                    simp only [if_true] at h2 h3
                    rw [h2, h3]
                  · intro hvs
                    exact absurd hvs (by simp)
                  · intro _ fi hfi
                    exact ⟨j, ht1 rfl, by omega⟩
                  · intro _ hfi
                    rw [hflags, hdec] at hfi
                    simp [firstTrue] at hfi
                | some v =>
                  have hstep : scan1Step side s e ⟨a, c, true, some j, tOpt, some v, vE⟩ (k, line) =
                      ⟨a + 1, c + 1, true, some j, tOpt, some v, some k⟩ := by
                    simp [scan1Step, markViolation, hat, hplus, hminus, hmeta, hcondR, hcondL]
                  rw [hstep]
                  obtain ⟨a2, c2, inH2, chs2, T, heq, ht1, ht2, ht3⟩ :=
                    ih (k + 1) (a + 1) (c + 1) true (some j) tOpt (some v) (some k)
                      (fun _ => ⟨j, rfl, by omega⟩)
                  refine ⟨a2, c2, inH2, chs2, T, ?_, fun _ => ht1 rfl, ?_, ?_⟩
                  · rw [heq, hflags, hdec]
                    obtain ⟨h1, h2, h3⟩ := specs_step_true 0 k tOpt (some v) vE
                      (patchLinesMatch side s e (a + 1) (c + 1) true rest)
                    simp only [reduceCtorEq, if_false] at h2 h3
                    rw [h2, h3]
                  · intro hvs
                    exact absurd hvs (by simp)
                  · intro hvs
                    exact absurd hvs (by simp)
              · by_cases hcondL : side = Side.left ∧ s ≤ a ∧ a ≤ e
                · have hdec : (decide (side = Side.right ∧ s ≤ c ∧ c ≤ e) ||
                      decide (side = Side.left ∧ s ≤ a ∧ a ≤ e)) = true := by
                    rw [decide_eq_true hcondL]
                    rw [Bool.or_true]
                  cases vS with
                  | none =>
                    have hstep : scan1Step side s e ⟨a, c, true, some j, tOpt, none, vE⟩ (k, line) =
                        ⟨a + 1, c + 1, true, some j, some j, some k, some k⟩ := by
                      simp [scan1Step, markViolation, hat, hplus, hminus, hmeta, hcondR, hcondL]
                    rw [hstep]
                    obtain ⟨a2, c2, inH2, chs2, T, heq, ht1, ht2, ht3⟩ :=
                      ih (k + 1) (a + 1) (c + 1) true (some j) (some j) (some k) (some k)
                        (fun _ => ⟨j, rfl, by omega⟩)
                    refine ⟨a2, c2, inH2, chs2, T, ?_, ?_, ?_, ?_⟩
                    · rw [heq, hflags, hdec]
                      obtain ⟨h1, h2, h3⟩ := specs_step_true 0 k tOpt (none : Option Nat) vE
                        (patchLinesMatch side s e (a + 1) (c + 1) true rest)
                      simp only [if_true] at h2 h3
                      rw [h2, h3]
                    · intro hvs
                      exact absurd hvs (by simp)
                    · intro _ fi hfi
                      exact ⟨j, ht1 rfl, by omega⟩
                    · intro _ hfi
                      rw [hflags, hdec] at hfi
                      simp [firstTrue] at hfi
                  | some v =>
                    have hstep : scan1Step side s e ⟨a, c, true, some j, tOpt, some v, vE⟩ (k, line) =
                        ⟨a + 1, c + 1, true, some j, tOpt, some v, some k⟩ := by
                      simp [scan1Step, markViolation, hat, hplus, hminus, hmeta, hcondR, hcondL]
                    rw [hstep]
                    obtain ⟨a2, c2, inH2, chs2, T, heq, ht1, ht2, ht3⟩ :=
                      ih (k + 1) (a + 1) (c + 1) true (some j) tOpt (some v) (some k)
                        (fun _ => ⟨j, rfl, by omega⟩)
                    refine ⟨a2, c2, inH2, chs2, T, ?_, fun _ => ht1 rfl, ?_, ?_⟩
                    · rw [heq, hflags, hdec]
                      obtain ⟨h1, h2, h3⟩ := specs_step_true 0 k tOpt (some v) vE
                        (patchLinesMatch side s e (a + 1) (c + 1) true rest)
                      simp only [reduceCtorEq, if_false] at h2 h3
                      rw [h2, h3]
                    · intro hvs
                      exact absurd hvs (by simp)
                    · intro hvs
                      exact absurd hvs (by simp)
                · have hdec : (decide (side = Side.right ∧ s ≤ c ∧ c ≤ e) ||
                      decide (side = Side.left ∧ s ≤ a ∧ a ≤ e)) = false := by
                    rw [decide_eq_false hcondR, decide_eq_false hcondL]
                    rfl
                  have hstep : scan1Step side s e ⟨a, c, true, some j, tOpt, vS, vE⟩ (k, line) =
                      ⟨a + 1, c + 1, true, some j, tOpt, vS, vE⟩ := by
                    simp [scan1Step, markViolation, hat, hplus, hminus, hmeta, hcondR, hcondL]
                  rw [hstep]
                  obtain ⟨a2, c2, inH2, chs2, T, heq, ht1, ht2, ht3⟩ :=
                    ih (k + 1) (a + 1) (c + 1) true (some j) tOpt vS vE
                      (fun _ => ⟨j, rfl, by omega⟩)
                  refine ⟨a2, c2, inH2, chs2, T, ?_, ht1, ?_, ?_⟩
                  · rw [heq, hflags, hdec]
                    obtain ⟨h1, h2, h3⟩ := specs_step_false 0 k tOpt vS vE
                      (patchLinesMatch side s e (a + 1) (c + 1) true rest)
                    rw [h2, h3]
                  · rw [hflags, hdec]
                    exact (target_conjs_step_false k tOpt vS T _ ht2 ht3).1
                  · rw [hflags, hdec]
                    exact (target_conjs_step_false k tOpt vS T _ ht2 ht3).2
      · rw [Bool.not_eq_true] at hinb
        subst hinb
        -- outside any hunk: line skipped, never flagged
        have hflags : patchLinesMatch side s e a c false (line :: rest) =
            false :: patchLinesMatch side s e a c false rest := by
          simp only [patchLinesMatch, hat, Bool.false_eq_true, if_false, Bool.not_false,
            if_true]
        have hstep : scan1Step side s e ⟨a, c, false, chs, tOpt, vS, vE⟩ (k, line) =
            ⟨a, c, false, chs, tOpt, vS, vE⟩ := by
          simp [scan1Step, hat]
        rw [hstep]
        obtain ⟨a2, c2, inH2, chs2, T, heq, ht1, ht2, ht3⟩ :=
          ih (k + 1) a c false chs tOpt vS vE (fun h => absurd h (by decide))
        refine ⟨a2, c2, inH2, chs2, T, ?_, ht1, ?_, ?_⟩
        · rw [heq, hflags]
          obtain ⟨h1, h2, h3⟩ := specs_step_false 0 k tOpt vS vE
            (patchLinesMatch side s e a c false rest)
          rw [h2, h3]
        · rw [hflags]
          exact (target_conjs_step_false k tOpt vS T _ ht2 ht3).1
        · rw [hflags]
          exact (target_conjs_step_false k tOpt vS T _ ht2 ht3).2

/-- Claim C9 (amended): for every patch containing a well-formed hunk --- any
preamble lines before its header and any further hunks after it --- when
[startLine, endLine] is that hunk's entire line range on the requested side
and the scan flags of the whole patch mark lines only inside that hunk's body
(hflags; this holds for every well-formed patch, other hunks' line ranges
being disjoint from this one's), extractDiffHunk with context 0 returns a
hunk whose kept non-header lines are the contiguous block of the hunk's body
from the first through the last line that carries a line number in the range
on that side. Leading and trailing runs of opposite-side-only lines are
dropped, so the kept lines equal the whole body exactly when the body
neither starts nor ends with such lines. -/
theorem extractDiffHunk_fullRange (patch hdr : JStr) (pre body rest : List JStr)
    (side : Side) (s e a c oc nc : Int) (f l : Nat)
    (hsplit : splitCJ '\n' patch = pre ++ (hdr :: (body ++ rest)))
    (hhdr : startsWithJ atat hdr = true)
    (ha : hunkOldStart hdr = some a) (hc : hunkNewStart hdr = some c)
    (hoc : hunkOldCount hdr = some oc) (hnc : hunkNewCount hdr = some nc)
    (hbody : ∀ x ∈ body, startsWithJ atat x = false)
    (hs : s = (match side with | Side.left => a | Side.right => c))
    (he : e = (match side with | Side.left => a + oc - 1 | Side.right => c + nc - 1))
    (hflags : patchLinesMatch side s e 0 0 false (splitCJ '\n' patch) =
      List.replicate (pre.length + 1) false ++
        (hunkBodyMatch side s e a c body ++ List.replicate rest.length false))
    (hf : firstTrue (hunkBodyMatch side s e a c body) = some f)
    (hl : lastTrue (hunkBodyMatch side s e a c body) = some l) :
    ∃ hdrOut : JStr, startsWithJ atat hdrOut = true ∧
      extractDiffHunk patch s e side 0 =
        joinSepJ (js "\n") (hdrOut :: ((body.drop f).take (l - f + 1))) := by
  have hfl : f ≤ l := firstTrue_le_lastTrue _ f l hf hl
  have hlb : l < body.length := by
    have h1 := lastTrue_lt_length _ l hl
    rwa [hunkBodyMatch_length] at h1
  have hF : firstTrue (patchLinesMatch side s e 0 0 false (splitCJ '\n' patch)) =
      some (pre.length + 1 + f) := by
    rw [hflags,
      firstTrue_append_of_none _ _ (firstTrue_replicate_false (pre.length + 1)),
      firstTrue_append_of_some _ _ f hf]
    simp
  have hL : lastTrue (patchLinesMatch side s e 0 0 false (splitCJ '\n' patch)) =
      some (pre.length + 1 + l) := by
    have hmid : lastTrue (hunkBodyMatch side s e a c body ++
        List.replicate rest.length false) = some l := by
      rw [lastTrue_append_of_none _ _ (lastTrue_replicate_false rest.length), hl]
    rw [hflags, lastTrue_append_of_some _ _ l hmid]
    simp
  have hlen : (splitCJ '\n' patch).length = pre.length + 1 + body.length + rest.length := by
    rw [hsplit]
    simp only [List.length_append, List.length_cons]
    omega
  obtain ⟨a2, c2, inH2, chs2, T, heq, ht1, ht2, ht3⟩ :=
    scan1_foldl_lines side s e (splitCJ '\n' patch) 0 0 0 false none none none none
      (fun h => absurd h (by decide))
  obtain ⟨tH, hT, htH⟩ := ht2 rfl (pre.length + 1 + f) hF
  have hVS : scanSpecVS 0 none (patchLinesMatch side s e 0 0 false (splitCJ '\n' patch)) =
      some (pre.length + 1 + f) := by
    unfold scanSpecVS
    rw [hF]
    simp
  have hVE : scanSpecVE 0 none (patchLinesMatch side s e 0 0 false (splitCJ '\n' patch)) =
      some (pre.length + 1 + l) := by
    unfold scanSpecVE
    rw [hL]
    simp
  rw [hVS, hVE, hT] at heq
  unfold extractDiffHunk
  have hfold : (splitCJ '\n' patch).enum.foldl (scan1Step side s e) scan1Init =
      ⟨a2, c2, inH2, chs2, some tH, some (pre.length + 1 + f),
        some (pre.length + 1 + l)⟩ := by
    show (List.enumFrom 0 (splitCJ '\n' patch)).foldl (scan1Step side s e) scan1Init = _
    exact heq
  dsimp only
  rw [hfold]
  dsimp only
  have hmax : (((tH : Int) + 1) ⊔ ((↑(pre.length + 1 + f) : Int) - 0)) =
      (↑(pre.length + 1 + f) : Int) := by
    rw [max_eq_right (by push_cast; omega)]
    omega
  have hmin : (((↑(splitCJ '\n' patch).length : Int) - 1) ⊓
      ((↑(pre.length + 1 + l) : Int) + 0)) = (↑(pre.length + 1 + l) : Int) := by
    rw [min_eq_right (by rw [hlen]; push_cast; omega)]
    omega
  rw [hmax, hmin]
  have hcnt : ((↑(pre.length + 1 + l) : Int) - ↑(pre.length + 1 + f) + 1).toNat =
      l - f + 1 := by omega
  have hgetD : ∀ i : Nat, i < body.length →
      (splitCJ '\n' patch).getD (pre.length + 1 + i) [] = body.getD i [] := by
    intro i hi
    rw [hsplit]
    exact getD_pre_mid pre hdr body rest [] i hi
  have hfilt : List.filter
      (fun i => decide (i < (↑(splitCJ '\n' patch).length : Int)) &&
        !startsWithJ atat ((splitCJ '\n' patch).getD i.toNat []))
      (intRangeListJ ↑(pre.length + 1 + f) ↑(pre.length + 1 + l)) =
      intRangeListJ ↑(pre.length + 1 + f) ↑(pre.length + 1 + l) := by
    apply List.filter_eq_self.mpr
    intro i hi
    unfold intRangeListJ at hi
    simp only [List.mem_map, List.mem_range] at hi
    obtain ⟨j, hj, rfl⟩ := hi
    rw [hcnt] at hj
    have hlt : ((↑(pre.length + 1 + f) : Int) + ↑j) < (↑(splitCJ '\n' patch).length : Int) := by
      rw [hlen]
      push_cast
      omega
    have htn : ((↑(pre.length + 1 + f) : Int) + ↑j).toNat = pre.length + 1 + (f + j) := by
      omega
    rw [Bool.and_eq_true, decide_eq_true_eq]
    refine ⟨hlt, ?_⟩
    rw [htn, hgetD (f + j) (by omega)]
    have hmem : body.getD (f + j) [] ∈ body := by
      rw [List.getD_eq_getElem _ _ (show f + j < body.length by omega)]
      exact List.getElem_mem _
    rw [hbody _ hmem]
    rfl
  rw [hfilt]
  have hmapN : (intRangeListJ ↑(pre.length + 1 + f) ↑(pre.length + 1 + l)).map Int.toNat =
      (List.range (l - f + 1)).map (fun j => pre.length + 1 + (f + j)) := by
    unfold intRangeListJ
    rw [List.map_map, hcnt]
    apply List.map_congr_left
    intro j hj
    simp only [Function.comp_apply]
    omega
  rw [hmapN]
  have htail : List.map (fun i => (splitCJ '\n' patch).getD i [])
      (List.map (fun j => pre.length + 1 + (f + j)) (List.range (l - f + 1))) =
      List.take (l - f + 1) (List.drop f body) := by
    rw [List.map_map]
    have h1 : List.map ((fun i => (splitCJ '\n' patch).getD i []) ∘
        fun j => pre.length + 1 + (f + j)) (List.range (l - f + 1)) =
        List.map (fun j => body.getD (f + j) []) (List.range (l - f + 1)) := by
      apply List.map_congr_left
      intro j hj
      simp only [List.mem_range] at hj
      simp only [Function.comp_apply]
      exact hgetD (f + j) (by omega)
    rw [h1]
    exact getD_range_slice body [] (l - f + 1) f (by omega)
  rw [htail]
  refine ⟨_, ?_, rfl⟩
  rfl

/-- Counterexample to claim C9 as stated: in the patch "@@ -1 +1 @@" with
body ["-old", "+new"], the entire right-side hunk range is [1, 1], yet the
extracted hunk keeps only "+new" --- the leading deletion "-old" is dropped,
so the kept non-header line set differs from the hunk's non-header lines. -/
theorem extractDiffHunk_fullRange_cex :
    extractDiffHunk (js "@@ -1 +1 @@\n-old\n+new") 1 1 Side.right 0 =
      js "@@ -2,0 +1 @@\n+new" ∧
    sideRanges Side.right (js "@@ -1 +1 @@\n-old\n+new") = [(1, 1)] ∧
    nonHeaderLines (js "@@ -1 +1 @@\n-old\n+new") = [js "-old", js "+new"] ∧
    nonHeaderLines (extractDiffHunk (js "@@ -1 +1 @@\n-old\n+new") 1 1 Side.right 0) =
      [js "+new"] := by
  refine ⟨by decide, by decide, by decide, by decide⟩

/-- Witness for the amended C9 on a two-hunk patch with a preamble line: for
the first hunk (right side range [1, 2], context 0) every body line of that
hunk is kept and the second hunk and the preamble are gone. -/
theorem extractDiffHunk_fullRange_witness :
    ∃ hdrOut : JStr, startsWithJ atat hdrOut = true ∧
      extractDiffHunk
          (js "diff --git a/f b/f\n@@ -1,2 +1,2 @@\n line1\n-old\n+new\n@@ -10,1 +10,1 @@\n-x\n+y")
          1 2 Side.right 0 =
        joinSepJ (js "\n")
          (hdrOut :: (([js " line1", js "-old", js "+new"].drop 0).take (2 - 0 + 1))) :=
  extractDiffHunk_fullRange
    (js "diff --git a/f b/f\n@@ -1,2 +1,2 @@\n line1\n-old\n+new\n@@ -10,1 +10,1 @@\n-x\n+y")
    (js "@@ -1,2 +1,2 @@") [js "diff --git a/f b/f"]
    [js " line1", js "-old", js "+new"] [js "@@ -10,1 +10,1 @@", js "-x", js "+y"]
    Side.right 1 2 1 1 2 2 0 2 (by decide) (by decide) (by decide) (by decide)
    (by decide) (by decide) (by decide) (by decide) (by decide) (by decide)
    (by decide) (by decide)

theorem mapStrip_getD (o : Option JStr) : (o.map stripLR).getD [] = stripLR (o.getD []) := by
  cases o <;> rfl

theorem parseIntJS_nil : parseIntJS [] = none := rfl

/-- Claim C2 (amended): a complaint tool call returns a structured error iff
the file path differs from the file under review, or the rule id is not in
the rule set, or a line number is missing or fails to parse as an integer
after stripping a leading L/R marker, or the stripped, parsed line reference
is not valid for the file patch; otherwise it returns the parameters
UNCHANGED (not normalised), and every accepted call satisfies
isLineReferenceValidForPatch on the stripped, parsed reference. -/
theorem complaint_spec (p : ComplaintParameters) (filename patch : JStr)
    (rules : List CodebaseRule) :
    ((∃ msg, complaint p filename patch rules = ComplaintResult.error msg) ↔
      (p.file_path ≠ filename ∨
        (∀ r ∈ rules, ¬ r.id = p.rule_id) ∨
        p.line_start = none ∨ p.line_end = none ∨
        parseIntJS (stripLR (p.line_start.getD [])) = none ∨
        parseIntJS (stripLR (p.line_end.getD [])) = none ∨
        isLineReferenceValidForPatch
          ⟨(parseIntJS (stripLR (p.line_start.getD []))).getD 0,
            (parseIntJS (stripLR (p.line_end.getD []))).getD 0, p.line_side⟩ patch = false)) ∧
    (∀ q, complaint p filename patch rules = ComplaintResult.ok q →
      q = p ∧ p.file_path = filename ∧ (∃ r ∈ rules, r.id = p.rule_id) ∧
      isLineReferenceValidForPatch
        ⟨(parseIntJS (stripLR (p.line_start.getD []))).getD 0,
          (parseIntJS (stripLR (p.line_end.getD []))).getD 0, p.line_side⟩ patch = true) := by
  unfold complaint
  dsimp only
  rw [mapStrip_getD, mapStrip_getD]
  split_ifs with h1 h2 h3 h4 h5
  · -- file path mismatch
    refine ⟨⟨fun _ => Or.inl h1, fun _ => ⟨_, rfl⟩⟩, ?_⟩
    intro q hq
    exact absurd hq (by simp)
  · -- rule not found
    have h2' : ∀ r ∈ rules, ¬ r.id = p.rule_id := by
      rw [Option.isNone_iff_eq_none, List.find?_eq_none] at h2
      intro r hr hid
      exact absurd (by simp [hid] : (r.id == p.rule_id) = true) (by simpa using h2 r hr)
    refine ⟨⟨fun _ => Or.inr (Or.inl h2'), fun _ => ⟨_, rfl⟩⟩, ?_⟩
    intro q hq
    exact absurd hq (by simp)
  · -- missing or empty line numbers
    have h3' : p.line_start = none ∨ p.line_end = none ∨
        parseIntJS (stripLR (p.line_start.getD [])) = none ∨
        parseIntJS (stripLR (p.line_end.getD [])) = none := by
      rcases Bool.or_eq_true_iff.mp h3 with h | h
      · cases hls : p.line_start with
        | none => exact Or.inl rfl
        | some s =>
          simp only [hls, Option.map_some', jsFalsy, List.isEmpty_iff] at h
          refine Or.inr (Or.inr (Or.inl ?_))
          simp only [Option.getD_some]
          rw [h]
          rfl
      · cases hls : p.line_end with
        | none => exact Or.inr (Or.inl rfl)
        | some s =>
          simp only [hls, Option.map_some', jsFalsy, List.isEmpty_iff] at h
          refine Or.inr (Or.inr (Or.inr ?_))
          simp only [Option.getD_some]
          rw [h]
          rfl
    refine ⟨⟨fun _ => ?_, fun _ => ⟨_, rfl⟩⟩, ?_⟩
    · rcases h3' with h | h | h | h
      · exact .inr (.inr (.inl h))
      · exact .inr (.inr (.inr (.inl h)))
      · exact .inr (.inr (.inr (.inr (.inl h))))
      · exact .inr (.inr (.inr (.inr (.inr (.inl h)))))
    · intro q hq
      exact absurd hq (by simp)
  · -- line numbers do not parse
    have h4' : parseIntJS (stripLR (p.line_start.getD [])) = none ∨
        parseIntJS (stripLR (p.line_end.getD [])) = none := by
      rcases Bool.or_eq_true_iff.mp h4 with h | h <;>
        rw [Option.isNone_iff_eq_none] at h
      · exact Or.inl h
      · exact Or.inr h
    refine ⟨⟨fun _ => ?_, fun _ => ⟨_, rfl⟩⟩, ?_⟩
    · rcases h4' with h | h
      · exact .inr (.inr (.inr (.inr (.inl h))))
      · exact .inr (.inr (.inr (.inr (.inr (.inl h)))))
    · intro q hq
      exact absurd hq (by simp)
  · -- invalid line reference
    rw [Bool.not_eq_true'] at h5
    refine ⟨⟨fun _ => ?_, fun _ => ⟨_, rfl⟩⟩, ?_⟩
    · exact Or.inr (Or.inr (Or.inr (Or.inr (Or.inr (Or.inr h5)))))
    · intro q hq
      exact absurd hq (by simp)
  · -- accepted
    rw [Bool.not_eq_true', Bool.not_eq_false] at h5
    simp only [Bool.or_eq_true, not_or, Option.isNone_iff_eq_none] at h2 h3 h4
    push_neg at h1
    constructor
    · constructor
      · rintro ⟨msg, hmsg⟩
        exact absurd hmsg (by simp)
      · intro hdisj
        exfalso
        rcases hdisj with h | h | h | h | h | h | h
        · exact h h1
        · obtain ⟨r, hrfind⟩ := Option.ne_none_iff_exists'.mp h2
          have hmem := List.mem_of_find?_eq_some hrfind
          have hpred := List.find?_some hrfind
          rw [beq_iff_eq] at hpred
          exact h r hmem hpred
        · rw [h] at h3
          exact h3.1 rfl
        · rw [h] at h3
          exact h3.2 rfl
        · cases hls : p.line_start with
          | none => rw [hls] at h3; exact h3.1 rfl
          | some s =>
            rw [hls] at h
            simp only [Option.getD_some] at h
            rw [hls] at h4
            simp only [Option.map_some, Option.getD_some] at h4
            exact h4.1 h
        · cases hls : p.line_end with
          | none => rw [hls] at h3; exact h3.2 rfl
          | some s =>
            rw [hls] at h
            simp only [Option.getD_some] at h
            rw [hls] at h4
            simp only [Option.map_some, Option.getD_some] at h4
            exact h4.2 h
        · rw [h5] at h
          simp at h
    · intro q hq
      have hqp : q = p := by
        simpa using hq.symm
      refine ⟨hqp, h1, ?_, h5⟩
      obtain ⟨r, hrfind⟩ := Option.ne_none_iff_exists'.mp h2
      have hmem := List.mem_of_find?_eq_some hrfind
      have hpred := List.find?_some hrfind
      rw [beq_iff_eq] at hpred
      exact ⟨r, hmem, hpred⟩

/-- Counterexample to claim C2 as stated: an accepted call with
line_start "L2" returns the original parameters, which differ from their
normalised form (line_start "2"), so accepted calls do not return the
normalised parameters. -/
theorem complaint_normalised_cex :
    complaint ⟨js "a.py", some (js "L2"), some (js "2"), Side.right, js "desc", js "r1"⟩
        (js "a.py") (js "@@ -1,1 +1,2 @@\n line1\n+line2")
        [⟨js "r1", [], js "rule-one", js "body", []⟩] =
      ComplaintResult.ok
        ⟨js "a.py", some (js "L2"), some (js "2"), Side.right, js "desc", js "r1"⟩ ∧
    specNormalisedParams
        ⟨js "a.py", some (js "L2"), some (js "2"), Side.right, js "desc", js "r1"⟩ ≠
      ⟨js "a.py", some (js "L2"), some (js "2"), Side.right, js "desc", js "r1"⟩ := by
  refine ⟨by decide, by decide⟩

/-- Witness for the amended C2 at a concrete accepted call. -/
theorem complaint_spec_witness :
    (⟨js "a.py", some (js "L2"), some (js "2"), Side.right, js "desc", js "r1"⟩ :
        ComplaintParameters) =
      ⟨js "a.py", some (js "L2"), some (js "2"), Side.right, js "desc", js "r1"⟩ ∧
    (js "a.py" : JStr) = js "a.py" ∧
    (∃ r ∈ [(⟨js "r1", [], js "rule-one", js "body", []⟩ : CodebaseRule)],
      r.id = js "r1") ∧
    isLineReferenceValidForPatch ⟨2, 2, Side.right⟩
      (js "@@ -1,1 +1,2 @@\n line1\n+line2") = true :=
  (complaint_spec
      ⟨js "a.py", some (js "L2"), some (js "2"), Side.right, js "desc", js "r1"⟩
      (js "a.py") (js "@@ -1,1 +1,2 @@\n line1\n+line2")
      [⟨js "r1", [], js "rule-one", js "body", []⟩]).2
    ⟨js "a.py", some (js "L2"), some (js "2"), Side.right, js "desc", js "r1"⟩
    (by decide)

/-- Claim C3 (code bug): a schema-conformant ranged read_file call --- the
arguments carry end_line_one_indexed_inclusive, as required by the
ReadFileParameters interface and the published tool schema, and no key
end_line_one_indexed --- always fails with an invalid-line-range error,
because tools.ts destructures the undeclared key end_line_one_indexed.  The
repository's own test calls readFile exactly this way and expects the
omitted-lines rendering, which readFileRange would produce. -/
theorem readFile_rangeRead_bug :
    readFile true true (js "Line 1\nLine 2\nLine 3\nLine 4")
        ⟨js "test.txt", some 2, some 3, none, false⟩ =
      ReadFileToolResult.error
        (js "Invalid line range: start=2, end=undefined. You must provide a valid line range.") ∧
    readFileRange (js "Line 1\nLine 2\nLine 3\nLine 4") 2 3 =
      js "[Lines 1-1 omitted]\nLine 2\nLine 3\n[Lines 4-4 omitted]" := by
  refine ⟨by decide, by decide⟩

theorem jleB_total (a b : JStr) : jleB a b = true ∨ jleB b a = true := by
  induction a generalizing b with
  | nil => left; rfl
  | cons x xs ih =>
    cases b with
    | nil => right; rfl
    | cons y ys =>
      simp only [jleB]
      rcases Nat.lt_trichotomy x.toNat y.toNat with h | h | h
      · left
        simp [h]
      · rw [if_neg (by omega), if_neg (by omega), if_neg (by omega), if_neg (by omega)]
        exact ih ys
      · right
        simp [h]

theorem jleB_trans (a b c : JStr) (hab : jleB a b = true) (hbc : jleB b c = true) :
    jleB a c = true := by
  induction a generalizing b c with
  | nil => rfl
  | cons x xs ih =>
    cases b with
    | nil => simp [jleB] at hab
    | cons y ys =>
      cases c with
      | nil => simp [jleB] at hbc
      | cons z zs =>
        simp only [jleB] at hab hbc ⊢
        by_cases hxy : x.toNat < y.toNat
        · by_cases hyz : y.toNat < z.toNat
          · rw [if_pos (by omega)]
          · rw [if_neg hyz] at hbc
            by_cases hzy : z.toNat < y.toNat
            · rw [if_pos hzy] at hbc
              exact absurd hbc (by simp)
            · rw [if_pos (by omega)]
        · rw [if_neg hxy] at hab
          by_cases hyx : y.toNat < x.toNat
          · rw [if_pos hyx] at hab
            exact absurd hab (by simp)
          · rw [if_neg hyx] at hab
            by_cases hyz : y.toNat < z.toNat
            · rw [if_pos (by omega)]
            · rw [if_neg hyz] at hbc
              by_cases hzy : z.toNat < y.toNat
              · rw [if_pos hzy] at hbc
                exact absurd hbc (by simp)
              · rw [if_neg hzy] at hbc
                rw [if_neg (by omega), if_neg (by omega)]
                exact ih ys zs hab hbc

instance : IsTotal JStr jleR := ⟨fun a b => jleB_total a b⟩

instance : IsTrans JStr jleR := ⟨fun a b c => jleB_trans a b c⟩

theorem foldl_push_eq (events : List ToolEvent) (acc : List JStr) :
    events.foldl
      (fun acc2 e2 => if e2.name == js "read_file" && e2.ok then acc2 ++ [e2.target_file]
        else acc2) acc =
    acc ++ (events.filter fun e2 => e2.name == js "read_file" && e2.ok).map
      (fun e2 => e2.target_file) := by
  induction events generalizing acc with
  | nil => simp
  | cons e rest ih =>
    simp only [List.foldl_cons, List.filter_cons]
    by_cases h : (e.name == js "read_file" && e.ok) = true
    · rw [h]
      simp only [if_true]
      rw [ih]
      simp
    · rw [Bool.not_eq_true] at h
      rw [h]
      simp only [Bool.false_eq_true, if_false]
      rw [ih]

/-- Claim C6 (amended): the visitedFiles of a completed review are exactly
the target_file arguments of the successful read_file tool calls, with the
file under review removed and the rest sorted by the string order ---
duplicates are preserved (the source never de-duplicates). -/
theorem visitedFiles_spec (events : List ToolEvent) (filename : JStr) :
    (visitedFilesOfEvents events filename).Perm
      (((events.filter fun e2 => e2.name == js "read_file" && e2.ok).map
        fun e2 => e2.target_file).filter fun f2 => f2 ≠ filename) ∧
    List.Sorted jleR (visitedFilesOfEvents events filename) ∧
    filename ∉ visitedFilesOfEvents events filename := by
  unfold visitedFilesOfEvents
  rw [foldl_push_eq]
  simp only [List.nil_append]
  refine ⟨List.perm_insertionSort _ _, List.sorted_insertionSort _ _, ?_⟩
  intro hmem
  have hmem2 := (List.perm_insertionSort jleR _).mem_iff.mp hmem
  rw [List.mem_filter] at hmem2
  have h2 := hmem2.2
  simp at h2

/-- Counterexample to claim C6 as stated: two successful read_file calls on
the same file leave that filename twice in visitedFiles, so the list is not
de-duplicated. -/
theorem visitedFiles_nodup_cex :
    visitedFilesOfEvents
        [⟨js "read_file", js "b.ts", true⟩, ⟨js "read_file", js "b.ts", true⟩]
        (js "a.ts") = [js "b.ts", js "b.ts"] ∧
    ¬ (visitedFilesOfEvents
        [⟨js "read_file", js "b.ts", true⟩, ⟨js "read_file", js "b.ts", true⟩]
        (js "a.ts")).Nodup := by
  refine ⟨by decide, by decide⟩

/-- Claim C5: when the applicable rule set is non-empty and the cache
lookup reports a hit, processFile reports the file as skipped with reason
"cached", returns the stored violations marked isCached = true with their
descriptions and line references preserved, and never constructs or invokes
the reviewer --- so no LLM completion request is issued for the file. -/
theorem processFile_cacheHit (allowedRules : List CodebaseRule)
    (cached : List ViolationDetail) (rv : List Violation)
    (h : allowedRules ≠ []) :
    (processFile allowedRules true cached rv).llmConsulted = false ∧
    (processFile allowedRules true cached rv).status = FileStatus.skipped (js "cached") ∧
    (∀ v ∈ (processFile allowedRules true cached rv).violations, v.isCached = some true) ∧
    ((processFile allowedRules true cached rv).violations.map
      (fun v => (v.description, v.line)) = cached.map fun v => (v.description, v.line)) := by
  unfold processFile
  have hne : allowedRules.isEmpty = false := by
    rw [List.isEmpty_eq_false]
    exact h
  simp only [hne, Bool.false_eq_true, if_false, if_true]
  refine ⟨by trivial, by trivial, ?_, ?_⟩
  · intro v hv
    rw [List.mem_map] at hv
    obtain ⟨w, hw, rfl⟩ := hv
    rfl
  · rw [List.map_map]
    rfl

/-- Witness for C5 at a concrete cache hit. -/
theorem processFile_cacheHit_witness :
    (processFile [(⟨js "r1", [], js "n", js "b", []⟩ : CodebaseRule)] true
        [⟨js "d", ⟨1, 1, Side.right⟩, js "r1"⟩] []).llmConsulted = false ∧
    (processFile [(⟨js "r1", [], js "n", js "b", []⟩ : CodebaseRule)] true
        [⟨js "d", ⟨1, 1, Side.right⟩, js "r1"⟩] []).status =
      FileStatus.skipped (js "cached") ∧
    (∀ v ∈ (processFile [(⟨js "r1", [], js "n", js "b", []⟩ : CodebaseRule)] true
        [⟨js "d", ⟨1, 1, Side.right⟩, js "r1"⟩] []).violations,
      v.isCached = some true) ∧
    ((processFile [(⟨js "r1", [], js "n", js "b", []⟩ : CodebaseRule)] true
        [⟨js "d", ⟨1, 1, Side.right⟩, js "r1"⟩] []).violations.map
      (fun v => (v.description, v.line)) =
      [(⟨js "d", ⟨1, 1, Side.right⟩, js "r1"⟩ : ViolationDetail)].map
        fun v => (v.description, v.line)) :=
  processFile_cacheHit [⟨js "r1", [], js "n", js "b", []⟩]
    [⟨js "d", ⟨1, 1, Side.right⟩, js "r1"⟩] [] (by decide)

theorem splitDashes_ne_nil (s : JStr) : splitDashes s ≠ [] := by
  induction s using splitDashes.induct with
  | case1 rest hsplit ih =>
    simp only [splitDashes, hsplit]
    simp
  | case2 rest h t hsplit ih =>
    simp only [splitDashes]
    rw [hsplit]
    simp
  | case3 c cs hne hsplit ih =>
    rw [splitDashes.eq_def]
    split
    · next rest heq =>
      rw [List.cons.injEq] at heq
      exact (hne rest heq.1 heq.2).elim
    · next c2 cs2 hne2 heq =>
      rw [List.cons.injEq] at heq
      rw [← heq.2, hsplit]
      simp
    · next heq => simp at heq
  | case4 c cs hne h t hsplit ih =>
    rw [splitDashes.eq_def]
    split
    · next rest heq =>
      rw [List.cons.injEq] at heq
      exact (hne rest heq.1 heq.2).elim
    · next c2 cs2 hne2 heq =>
      rw [List.cons.injEq] at heq
      rw [← heq.2, hsplit]
      simp
    · next heq => simp at heq
  | case5 => simp [splitDashes]

theorem joinSepJ_cons_head (sep : JStr) (c : Char) (h : JStr) (t : List JStr) :
    joinSepJ sep ((c :: h) :: t) = c :: joinSepJ sep (h :: t) := by
  cases t <;> simp [joinSepJ]

theorem splitDashes_join (s : JStr) : joinSepJ (js "---") (splitDashes s) = s := by
  induction s using splitDashes.induct with
  | case1 rest hsplit ih => exact absurd hsplit (splitDashes_ne_nil rest)
  | case2 rest h t hsplit ih =>
    simp only [splitDashes]
    rw [hsplit]
    rw [hsplit] at ih
    show [] ++ js "---" ++ joinSepJ (js "---") (h :: t) = '-' :: '-' :: '-' :: rest
    rw [ih]
    rfl
  | case3 c cs hne hsplit ih => exact absurd hsplit (splitDashes_ne_nil cs)
  | case4 c cs hne h t hsplit ih =>
    rw [splitDashes.eq_def]
    split
    · next rest heq =>
      rw [List.cons.injEq] at heq
      exact (hne rest heq.1 heq.2).elim
    · next c2 cs2 hne2 heq =>
      rw [List.cons.injEq] at heq
      obtain ⟨hc2, hcs2⟩ := heq
      subst hc2
      subst hcs2
      rw [hsplit]
      rw [hsplit] at ih
      rw [joinSepJ_cons_head, ih]
    · next heq => simp at heq
  | case5 => rfl

theorem getD_take_lt {α : Type} (l : List α) (d : α) (i n : Nat) (h : i < n) :
    (l.take n).getD i d = l.getD i d := by
  simp only [List.getD]
  rw [List.get?_take h]

/-- Claim C10: for a rule file starting with a "---" frontmatter block (at
least three "---"-separated segments), the loaded rule contents are exactly
the trimmed text strictly between the second and third occurrences of "---"
(segment 2 of the non-overlapping left-to-right split); the join identity
certifies that the split decomposes the file, so any body text after a later
"---" ends up in later segments and is dropped from the rule contents. -/
theorem getRuleFromFile_frontmatter (hash : JStr → JStr) (filePath content : JStr)
    (h0 : startsWithJ (js "---") content = true)
    (h3 : 3 ≤ (splitDashes content).length) :
    (getRuleFromFile hash filePath content).contents =
      trimJ ((splitDashes content).getD 2 []) ∧
    joinSepJ (js "---") (splitDashes content) = content := by
  refine ⟨?_, splitDashes_join content⟩
  unfold getRuleFromFile parseFrontmatter
  rw [h0]
  simp only [Bool.not_true, Bool.false_eq_true, if_false]
  have hlen : ((splitDashes content).take 3).length = 3 := by
    rw [List.length_take]
    omega
  rw [if_neg (by rw [hlen]; omega)]
  exact congrArg trimJ (getD_take_lt _ [] 2 3 (by omega))

/-- Witness for C10 on a file whose body contains a horizontal rule: the
loaded contents are "body text"; the text after the third "---" is gone. -/
theorem getRuleFromFile_frontmatter_witness :
    ((getRuleFromFile (fun s => s) (js "rule.md")
        (js "---\ninclude: *.ts\n---\nbody text\n---\ndropped")).contents =
      trimJ ((splitDashes (js "---\ninclude: *.ts\n---\nbody text\n---\ndropped")).getD 2 []) ∧
    joinSepJ (js "---")
        (splitDashes (js "---\ninclude: *.ts\n---\nbody text\n---\ndropped")) =
      js "---\ninclude: *.ts\n---\nbody text\n---\ndropped") ∧
    (getRuleFromFile (fun s => s) (js "rule.md")
        (js "---\ninclude: *.ts\n---\nbody text\n---\ndropped")).contents = js "body text" :=
  ⟨getRuleFromFile_frontmatter (fun s => s) (js "rule.md")
      (js "---\ninclude: *.ts\n---\nbody text\n---\ndropped") (by decide) (by decide),
    by decide⟩

/-- Counterexample for C7: newRule concatenates directory and name with an
empty separator, so the distinct pairs (directory "a", name "bc") and
(directory "ab", name "c") hash the same key "abc" and collide; moreover the
directory-walk constructor joins with "/", so the same pair (directory "ab",
name "c") gets a different id ("abc" versus "ab/c") across constructors. -/
theorem rule_id_cex :
    (newRule (fun s => s) (some (js "a")) (js "bc") [] []).id =
      (newRule (fun s => s) (some (js "ab")) (js "c") [] []).id ∧
    ((some (js "a") : Option JStr), js "bc") ≠ ((some (js "ab") : Option JStr), js "c") ∧
    (newRule (fun s => s) (some (js "ab")) (js "c") [] []).id ≠
      (ruleFromDirectoryFile (fun s => s) (js "ab") (js "c") []).id := by
  decide

/-- Claim C7 (amended): with an injective hash, newRule ids collide exactly
when the keys directory ++ name (empty separator; name alone when directory
is absent or empty) collide, and getRulesFromDirectory ids collide exactly
when subdirectoryPath ++ "/" ++ name collide --- not when the (directory,
name) pairs collide, and not uniformly across the two constructors. -/
theorem rule_id_spec (hash : JStr → JStr) (hinj : Function.Injective hash)
    (d1 d2 : Option JStr) (n1 c1 i1 n2 c2 i2 : JStr)
    (sp1 m1 b1 sp2 m2 b2 : JStr) :
    ((newRule hash d1 n1 c1 i1).id = (newRule hash d2 n2 c2 i2).id ↔
      newRuleKey d1 n1 = newRuleKey d2 n2) ∧
    ((ruleFromDirectoryFile hash sp1 m1 b1).id =
        (ruleFromDirectoryFile hash sp2 m2 b2).id ↔
      sp1 ++ js "/" ++ m1 = sp2 ++ js "/" ++ m2) := by
  constructor
  · exact ⟨fun h => hinj h, fun h => congrArg hash h⟩
  · exact ⟨fun h => hinj h, fun h => congrArg hash h⟩

/-- Witness for C7: at the identity hash, the pairs (directory "a", name
"b") and (no directory, name "ab") are distinct yet yield equal newRule
ids. -/
theorem rule_id_spec_witness :
    (newRule (fun s => s) (some (js "a")) (js "b") [] []).id =
      (newRule (fun s => s) none (js "ab") [] []).id :=
  (rule_id_spec (fun s => s) (fun a b h => h) (some (js "a")) none
    (js "b") [] [] (js "ab") [] [] [] [] [] [] [] []).1.mpr (by decide)

/-- Counterexample for C8: two consecutive heading lines. newRule strips
only the first non-blank line when it is a heading, so from "# A\n## B\nbody"
the resulting rule contents still begin with the recognised heading line
"## B". -/
theorem newRule_heading_cex :
    (newRule (fun s => s) none (js "r") (js "# A\n## B\nbody") []).contents =
      js "## B\nbody" ∧
    isHeadingLine (trimJ ((splitCJ '\n'
      (newRule (fun s => s) none (js "r") (js "# A\n## B\nbody") []).contents).getD 0 []))
      = true := by
  decide

/-- Claim C8 (amended): the glyph half of the invariant holds
unconditionally --- every rule built by newRule has contents free of the
five stripped glyph code points (the heading half fails: only one leading
heading line is stripped, see the counterexample). -/
theorem newRule_glyphFree (hash : JStr → JStr) (d : Option JStr)
    (name contents includeStr : JStr) :
    ((newRule hash d name contents includeStr).contents.all
      fun c => !(strippedGlyphs.contains c)) = true := by
  simp only [newRule, processRuleContents, stripGlyphs]
  rw [List.all_eq_true]
  intro c hc
  rw [List.mem_filter] at hc
  exact hc.2

/-- Counterexample for C4: a stored review row whose rule-id list is empty
matches ANY current rule set (the stored-subset test is vacuous), so the
lookup reports a hit although the stored rule-id set differs, as a set, from
the derived one (the derived id of the current rule is not stored). -/
theorem hasReviewedFileWithSameHash_cex :
    hasReviewedFileWithSameHash (fun s => s) (fun _ _ => 0)
      ⟨[], [], [⟨js "id1", js "a.ts", js "h", 0, []⟩], []⟩
      (js "/root") (js "a.ts") (js "h")
      [⟨js "r1", [], js "n", js "body", []⟩] = true ∧
    (fun s => s) (createRuleFile ⟨js "r1", [], js "n", js "body", []⟩) ∉
      ([] : List JStr) := by
  decide

/-- Claim C4 (amended): hasReviewedFileWithSameHash returns true iff the
FIRST review_files row matching (fileName, fileSha, stored-ids-subset) exists
and every visited_files row tied to it has a matching recomputed freshness
token; and the row predicate tests that every STORED rule id belongs to the
current derived id list (a subset test, not set equality). -/
theorem hasReviewedFileWithSameHash_iff (hash : JStr → JStr) (stat : JStr → JStr → Int)
    (db : DatabaseSchema) (root fileName hashv : JStr) (rules : List CodebaseRule) :
    (hasReviewedFileWithSameHash hash stat db root fileName hashv rules = true ↔
      ∃ f, db.review_files.find? (reviewRowMatches fileName hashv
            (rules.map fun r => hash (createRuleFile r))) = some f ∧
        ∀ v ∈ db.visited_files, v.review_file_id = f.id →
          getFileSha hash stat root v.fileName = v.fileSha) ∧
    (∀ (ids : List JStr) (f : ReviewFileRow), reviewRowMatches fileName hashv ids f = true ↔
      (f.fileName = fileName ∧ f.fileSha = hashv ∧ ∀ rid ∈ f.rule_ids, rid ∈ ids)) := by
  constructor
  · unfold hasReviewedFileWithSameHash
    dsimp only
    cases hfind : db.review_files.find? (reviewRowMatches fileName hashv
        (rules.map fun r => hash (createRuleFile r))) with
    | none => simp
    | some f =>
      constructor
      · intro h
        refine ⟨f, rfl, ?_⟩
        intro v hv hid
        have := List.all_eq_true.mp h v (List.mem_filter.mpr ⟨hv, by simp [hid]⟩)
        simpa using this
      · rintro ⟨g, hg, hall⟩
        rw [Option.some.injEq] at hg
        subst hg
        rw [List.all_eq_true]
        intro v hv
        rw [List.mem_filter] at hv
        have := hall v hv.1 (by simpa using hv.2)
        simpa using this
  · intro ids f
    unfold reviewRowMatches
    simp [List.all_eq_true, List.contains, List.elem_iff, and_assoc]
